import Mathlib

/-
Verification of the evo cell-simulation engine (rust-evo).

This file gives a shallow embedding of the parts of the engine that the
verified properties are about:

 * the control-request budget pass (`evo_model/src/biology/cell.rs`),
 * the sparse-neural-net genome (`evo_domain/src/biology/genome.rs`),
 * the cell-layer body and brain (`evo_domain/src/biology/layers.rs`),
 * bonds and bond strain (`evo_domain/src/physics/bond.rs`),
 * the world's bond-energy and bond-request passes (`evo_domain/src/world.rs`).

Rust `f64`/`f32` scalars are modelled as `ℚ` (all arithmetic involved is
exact on the inputs considered), except the bond-strain geometry, which
needs square roots and is modelled over `ℝ`.  Division by zero in the
budget pass is modelled explicitly (in IEEE-754 arithmetic
`(t / 0).min(1.0)` is `1.0` for every `t ≥ 0.0`, since `t / 0.0` is `+∞`
for `t > 0.0`, and `NaN.min(1.0) = 1.0` for `t = 0.0`; the embedding
branches on `expense = 0` to capture this).  Rust panics are modelled by
`Option` results (`none` = panic) where a claim depends on them.
-/

namespace Evo

/-! ## Control requests

`ControlRequest`, `CostedControlRequest` and `BudgetedControlRequest`.
Modelled from the spec: the repository's `biology/control_requests.rs` is
not among the sources; the spec describes the records as
"(layer_index, channel_index, value_index, requested_value) →
add (allowed_value, energy_delta) → add (budgeted_fraction)", with
constructors `free` (zero energy delta), `unlimited` (allowed value =
requested value) and `limited` (an explicitly clamped allowed value). -/

structure ControlRequest where
  layer_index : ℕ
  channel_index : ℕ
  value_index : ℕ
  requested_value : ℚ
  deriving DecidableEq, Repr

structure CostedControlRequest where
  control_request : ControlRequest
  allowed_value : ℚ
  energy_delta : ℚ
  deriving DecidableEq, Repr

def CostedControlRequest.free (r : ControlRequest) : CostedControlRequest :=
  ⟨r, r.requested_value, 0⟩

def CostedControlRequest.unlimited (r : ControlRequest) (d : ℚ) : CostedControlRequest :=
  ⟨r, r.requested_value, d⟩

def CostedControlRequest.limited (r : ControlRequest) (v d : ℚ) : CostedControlRequest :=
  ⟨r, v, d⟩

structure BudgetedControlRequest where
  control_request : ControlRequest
  allowed_value : ℚ
  energy_delta : ℚ
  budgeted_fraction : ℚ
  deriving DecidableEq, Repr

def BudgetedControlRequest.mk' (c : CostedControlRequest) (f : ℚ) : BudgetedControlRequest :=
  ⟨c.control_request, c.allowed_value, c.energy_delta, f⟩

def BudgetedControlRequest.requested_value (r : BudgetedControlRequest) : ℚ :=
  r.control_request.requested_value

/-! ## The budget pass (`Cell::budget_control_requests`, evo_model cell.rs) -/

/-- `Cell::summarize_request_energy_deltas`: fold the costed requests into
(total income, total expense); a positive energy delta is income, any other
energy delta is subtracted into the expense accumulator. -/
def summarize_request_energy_deltas (costed : List CostedControlRequest) : ℚ × ℚ :=
  costed.foldl
    (fun acc request =>
      let energy_delta := request.energy_delta
      if 0 < energy_delta then (acc.1 + energy_delta, acc.2)
      else (acc.1, acc.2 - energy_delta))
    (0, 0)

/-- `Cell::budget_control_requests`.  The `if expense = 0 then 1` branch is
the IEEE-754 behaviour of `(total / expense).min(1.0)` at `expense = 0.0`
for `total ≥ 0.0` (see the header comment). -/
def budget_control_requests (start_energy : ℚ) (costed : List CostedControlRequest) :
    ℚ × List BudgetedControlRequest :=
  let income_expense := summarize_request_energy_deltas costed
  let income := income_expense.1
  let expense := income_expense.2
  let total_start_energy := start_energy + income
  let budgeted_fraction :=
    if expense = 0 then 1 else min (total_start_energy / expense) 1
  let adjusted_expense := min (expense * budgeted_fraction) total_start_energy
  let end_energy := total_start_energy - adjusted_expense
  (end_energy,
    costed.map fun costed_request =>
      BudgetedControlRequest.mk' costed_request
        (if costed_request.energy_delta < 0 then budgeted_fraction else 1))

/-- Both components of `summarize_request_energy_deltas` are non-negative. -/
lemma summarize_request_energy_deltas_nonneg (costed : List CostedControlRequest) :
    0 ≤ (summarize_request_energy_deltas costed).1 ∧
      0 ≤ (summarize_request_energy_deltas costed).2 := by
  unfold summarize_request_energy_deltas
  suffices h : ∀ (init : ℚ × ℚ), 0 ≤ init.1 → 0 ≤ init.2 →
      0 ≤ (costed.foldl
        (fun acc request =>
          let energy_delta := request.energy_delta
          if 0 < energy_delta then (acc.1 + energy_delta, acc.2)
          else (acc.1, acc.2 - energy_delta)) init).1 ∧
      0 ≤ (costed.foldl
        (fun acc request =>
          let energy_delta := request.energy_delta
          if 0 < energy_delta then (acc.1 + energy_delta, acc.2)
          else (acc.1, acc.2 - energy_delta)) init).2 by
    exact h (0, 0) le_rfl le_rfl
  induction costed with
  | nil => exact fun init h1 h2 => ⟨h1, h2⟩
  | cons c rest ih =>
    intro init h1 h2
    simp only [List.foldl_cons]
    by_cases hc : 0 < c.energy_delta
    · exact ih _ (by simpa [hc] using add_nonneg h1 hc.le) (by simpa [hc] using h2)
    · refine ih _ (by simpa [hc] using h1) ?_
      have : 0 ≤ -c.energy_delta := by linarith [not_lt.mp hc]
      simpa [hc, sub_eq_add_neg] using add_nonneg h2 this

/-- C1: the budget pass computes `budgeted_fraction = min(1, (start+income)/expense)`
(equal to 1 whenever the expense is zero, covering the division-by-zero case),
assigns that fraction to every expense-bearing request and fraction 1 to every
other request, returns `end_energy = max(0, start+income − fraction·expense)`,
and the fraction lies in `[0,1]`, equal to 1 exactly when
`start + income ≥ expense`. -/
theorem budget_pass_law (start income expense F : ℚ)
    (costed : List CostedControlRequest)
    (hstart : 0 ≤ start)
    (hie : summarize_request_energy_deltas costed = (income, expense))
    (hF : F = if expense = 0 then 1 else min 1 ((start + income) / expense)) :
    budget_control_requests start costed =
      (max 0 (start + income - F * expense),
        costed.map fun c =>
          BudgetedControlRequest.mk' c (if c.energy_delta < 0 then F else 1)) ∧
    0 ≤ F ∧ F ≤ 1 ∧ (F = 1 ↔ expense ≤ start + income) := by
  have hnn := summarize_request_energy_deltas_nonneg costed
  rw [hie] at hnn
  have hincome : 0 ≤ income := by simpa using hnn.1
  have hexpense : 0 ≤ expense := by simpa using hnn.2
  have htotal : 0 ≤ start + income := add_nonneg hstart hincome
  have hFdef : (if expense = 0 then (1 : ℚ)
      else min ((start + income) / expense) 1) = F := by
    rw [hF]
    by_cases h0 : expense = 0
    · simp [h0]
    · simp [h0, min_comm]
  have hFnonneg : 0 ≤ F := by
    rw [hF]
    by_cases h0 : expense = 0
    · simp [h0]
    · have hpos : 0 < expense := lt_of_le_of_ne hexpense (Ne.symm h0)
      simp only [h0, if_false]
      exact le_min (by norm_num) (div_nonneg htotal hpos.le)
  have hFle : F ≤ 1 := by
    rw [hF]
    by_cases h0 : expense = 0
    · simp [h0]
    · simp only [h0, if_false]
      exact min_le_left _ _
  refine ⟨?_, hFnonneg, hFle, ?_⟩
  · simp only [budget_control_requests, hie]
    have hend : start + income - min (expense * F) (start + income) =
        max 0 (start + income - F * expense) := by
      rcases le_total (expense * F) (start + income) with h | h
      · rw [min_eq_left h, max_eq_right (by linarith [mul_comm expense F])]
        ring_nf
      · rw [min_eq_right h, max_eq_left (by linarith [mul_comm expense F])]
        ring
    rw [hFdef, hend]
  · rw [hF]
    by_cases h0 : expense = 0
    · simp only [h0, if_true, eq_self_iff_true, true_iff]
      exact htotal
    · have hpos : 0 < expense := lt_of_le_of_ne hexpense (Ne.symm h0)
      simp only [h0, if_false]
      rw [min_eq_left_iff, one_le_div hpos]

/-- Concrete requests for the budget-pass witness: one expense of 1.5 and one
income of 1 (the `budgeting_updates_energy_with_request_deltas` scenario). -/
def budget_witness_requests : List CostedControlRequest :=
  [CostedControlRequest.unlimited ⟨0, 0, 0, 0⟩ (-3/2),
   CostedControlRequest.unlimited ⟨0, 0, 0, 0⟩ 1]

theorem budget_pass_law_witness :
    budget_control_requests 3 budget_witness_requests =
      (max 0 (3 + 1 - 1 * (3/2)),
        budget_witness_requests.map fun c =>
          BudgetedControlRequest.mk' c (if c.energy_delta < 0 then 1 else 1)) ∧
    (0 : ℚ) ≤ 1 ∧ (1 : ℚ) ≤ 1 ∧ ((1 : ℚ) = 1 ↔ (3/2 : ℚ) ≤ 3 + 1) :=
  budget_pass_law 3 1 (3/2) 1 budget_witness_requests (by norm_num)
    (by norm_num [budget_witness_requests, summarize_request_energy_deltas,
      CostedControlRequest.unlimited]) (by norm_num)

/-! ## SparseNeuralNet genome (`evo_domain/src/biology/genome.rs`)

Node values are `f32` in the source, modelled as `ℚ`.  `TransferFn` wraps an
arbitrary function on node values (`TransferFn::new` accepts any
`fn(&mut f32)`); the claims only evaluate the identity transfer function. -/

structure TransferFn where
  the_fn : ℚ → ℚ

def TransferFn.IDENTITY : TransferFn := ⟨fun v => v⟩

def TransferFn.call (f : TransferFn) (v : ℚ) : ℚ := f.the_fn v

inductive Op where
  | Bias (value_index : ℕ) (bias : ℚ)
  | Connection (from_value_index : ℕ) (to_value_index : ℕ) (weight : ℚ)
  | Transfer (value_index : ℕ) (transfer_fn : TransferFn)

/-- `Op::run`: one op applied to the node-value buffer.  Rust indexing panics
out of range; the embedding returns `none` there. -/
def Op.run (op : Op) (node_values : List ℚ) : Option (List ℚ) :=
  match op with
  | .Bias value_index bias =>
      if value_index < node_values.length then
        some (node_values.set value_index bias)
      else none
  | .Connection from_value_index to_value_index weight =>
      if from_value_index < node_values.length ∧
          to_value_index < node_values.length then
        some (node_values.set to_value_index
          (node_values.getD to_value_index 0 +
            weight * node_values.getD from_value_index 0))
      else none
  | .Transfer value_index transfer_fn =>
      if value_index < node_values.length then
        some (node_values.set value_index
          (transfer_fn.call (node_values.getD value_index 0)))
      else none

/-- `SparseNeuralNetGenome::run`: the ops applied in order over the buffer. -/
def run_ops (ops : List Op) (node_values : List ℚ) : Option (List ℚ) :=
  ops.foldlM (fun v op => op.run v) node_values

structure SparseNeuralNetGenome where
  ops : List Op
  transfer_fn : TransferFn
  num_nodes : ℕ

def SparseNeuralNetGenome.new (transfer_fn : TransferFn) : SparseNeuralNetGenome :=
  ⟨[], transfer_fn, 0⟩

/-- `SparseNeuralNetGenome::grow_num_nodes_if_needed`: `VecIndex` is `u16`,
so `new_index + 1` is computed modulo `2^16 = 65536` (release-build
wraparound); at `new_index = 65535` the increment wraps to `0` and
`num_nodes` does not grow. -/
def SparseNeuralNetGenome.grow_num_nodes_if_needed
    (g : SparseNeuralNetGenome) (new_index : ℕ) : SparseNeuralNetGenome :=
  { g with num_nodes := max g.num_nodes ((new_index + 1) % 65536) }

/-- `SparseNeuralNetGenome::connect_node`: append `Bias`, one `Connection`
per input, then `Transfer`, growing `num_nodes` past every index used
(except that the `u16` increment in `grow_num_nodes_if_needed` wraps at
index `65535`). -/
def SparseNeuralNetGenome.connect_node (g : SparseNeuralNetGenome)
    (to_value_index : ℕ) (bias : ℚ) (from_value_weights : List (ℕ × ℚ)) :
    SparseNeuralNetGenome :=
  let g1 := g.grow_num_nodes_if_needed to_value_index
  let g2 := { g1 with ops := g1.ops ++ [Op.Bias to_value_index bias] }
  let g3 := from_value_weights.foldl
    (fun g fw =>
      let g' := g.grow_num_nodes_if_needed fw.1
      { g' with ops := g'.ops ++ [Op.Connection fw.1 to_value_index fw.2] })
    g2
  { g3 with ops := g3.ops ++ [Op.Transfer to_value_index g3.transfer_fn] }

def SparseNeuralNetGenome.run (g : SparseNeuralNetGenome)
    (node_values : List ℚ) : Option (List ℚ) :=
  run_ops g.ops node_values

structure SparseNeuralNet where
  genome : SparseNeuralNetGenome
  node_values : List ℚ

def SparseNeuralNet.new (genome : SparseNeuralNetGenome) : SparseNeuralNet :=
  ⟨genome, List.replicate genome.num_nodes 0⟩

/-- `SparseNeuralNet::set_node_value` (in-bounds use only; the source panics
out of range, and every claim writes in bounds). -/
def SparseNeuralNet.set_node_value (net : SparseNeuralNet) (index : ℕ)
    (value : ℚ) : SparseNeuralNet :=
  { net with node_values := net.node_values.set index value }

def SparseNeuralNet.run (net : SparseNeuralNet) : Option SparseNeuralNet :=
  (net.genome.run net.node_values).map fun v => { net with node_values := v }

/-! ### Mutation (`spawn`)

The mutation randomness trait takes `&mut self`; the embedding threads an
explicit state of arbitrary type through `mutate_weight` in op order, exactly
as the iterator map does. -/

/-- `Op::copy_with_mutated_weight` for a whole op list, threading the
randomness state left to right; the closure is invoked once per `Bias` and
once per `Connection`, never for `Transfer`. -/
def copy_with_mutated_weights {S : Type} (mutate : S → ℚ → ℚ × S) :
    List Op → S → List Op × S
  | [], s => ([], s)
  | op :: rest, s =>
      let step : Op × S :=
        match op with
        | .Bias i b => let m := mutate s b; (Op.Bias i m.1, m.2)
        | .Connection f t w => let m := mutate s w; (Op.Connection f t m.1, m.2)
        | .Transfer i tf => (Op.Transfer i tf, s)
      let tail := copy_with_mutated_weights mutate rest step.2
      (step.1 :: tail.1, tail.2)

/-- `SparseNeuralNetGenome::spawn`: copy of the genome with each numeric
coefficient passed through the randomness; `num_nodes` and the transfer
function are inherited unchanged. -/
def SparseNeuralNetGenome.spawn {S : Type} (g : SparseNeuralNetGenome)
    (mutate : S → ℚ → ℚ × S) (s : S) : SparseNeuralNetGenome × S :=
  let m := copy_with_mutated_weights mutate g.ops s
  ({ ops := m.1, transfer_fn := g.transfer_fn, num_nodes := g.num_nodes }, m.2)

structure MutationParameters where
  weight_mutation_probability : ℚ
  weight_mutation_stdev : ℚ
  add_node_probability : ℚ

def MutationParameters.NO_MUTATION : MutationParameters := ⟨0, 0, 0⟩

/-- `SeededMutationRandomness`.  The PCG stream from the external `rand`
crate is modelled by two oracle streams indexed by a draw counter: a uniform
draw in `[0,1)` consumed by `gen_bool` (`gen_bool p` is `u < p`, so it is
always `false` at probability `0`) and a standard-normal draw consumed only
when the weight mutates. -/
structure SeededMutationRandomness where
  mutation_parameters : MutationParameters
  uniform_draws : ℕ → ℚ
  gaussian_draws : ℕ → ℚ
  step : ℕ

/-- `SeededMutationRandomness::mutate_weight`. -/
def SeededMutationRandomness.mutate_weight (r : SeededMutationRandomness)
    (weight : ℚ) : ℚ × SeededMutationRandomness :=
  if r.uniform_draws r.step < r.mutation_parameters.weight_mutation_probability then
    let gaussian := r.gaussian_draws r.step
    (weight + gaussian * r.mutation_parameters.weight_mutation_stdev * weight,
      { r with step := r.step + 1 })
  else (weight, { r with step := r.step + 1 })

/-- C9's structural-preservation relation: same op kind, same value indices,
same transfer function; only the numeric coefficient may differ. -/
def Op.same_structure : Op → Op → Prop
  | .Bias i _, .Bias i' _ => i = i'
  | .Connection f t _, .Connection f' t' _ => f = f' ∧ t = t'
  | .Transfer i tf, .Transfer i' tf' => i = i' ∧ tf = tf'
  | _, _ => False

/-- Component access for three-element value buffers (used to evaluate the
concrete recurrent-net scenario). -/
lemma list_three_getElem_one (a b c : ℚ) : ([a, b, c] : List ℚ)[1] = b := rfl

/-- The genome of the recurrent-net scenario E2:
`connect_node(1, 0.0, [(0,1.0),(2,2.0)])` then `connect_node(2, 0.0, [(1,1.0)])`
with the identity transfer function. -/
def recurrent_example_genome : SparseNeuralNetGenome :=
  ((SparseNeuralNetGenome.new TransferFn.IDENTITY).connect_node 1 0
      [(0, 1), (2, 2)]).connect_node 2 0 [(1, 1)]

/-- C2: `run` applies the ops strictly in insertion order (running a
concatenation is running the first part, then the second, on the updated
buffer), each op has the stated effect (`Bias` overwrites, `Connection`
accumulates, `Transfer` maps), and on the recurrent example genome the first
run after `v[0] := 1` yields `{1,1,1}` while the second run after `v[0] := 0`
yields `{0,2,2}` — the connection from node 2 reads node 2's prior-run
value. -/
theorem run_ops_insertion_order_and_recurrence :
    (∀ (ops₁ ops₂ : List Op) (v : List ℚ),
        run_ops (ops₁ ++ ops₂) v = (run_ops ops₁ v).bind (run_ops ops₂)) ∧
    (∀ (i : ℕ) (b : ℚ) (v : List ℚ), i < v.length →
        Op.run (Op.Bias i b) v = some (v.set i b)) ∧
    (∀ (f t : ℕ) (w : ℚ) (v : List ℚ), f < v.length → t < v.length →
        Op.run (Op.Connection f t w) v =
          some (v.set t (v.getD t 0 + w * v.getD f 0))) ∧
    (∀ (i : ℕ) (tf : TransferFn) (v : List ℚ), i < v.length →
        Op.run (Op.Transfer i tf) v = some (v.set i (tf.call (v.getD i 0)))) ∧
    (SparseNeuralNet.new recurrent_example_genome).node_values = [0, 0, 0] ∧
    ((SparseNeuralNet.new recurrent_example_genome).set_node_value 0 1).run.map
        SparseNeuralNet.node_values = some [1, 1, 1] ∧
    (((SparseNeuralNet.new recurrent_example_genome).set_node_value 0 1).run.bind
        fun n1 => ((n1.set_node_value 0 0).run.map SparseNeuralNet.node_values))
      = some [0, 2, 2] := by
  refine ⟨?_, ?_, ?_, ?_, ?_, ?_, ?_⟩
  · intro ops₁ ops₂ v
    induction ops₁ generalizing v with
    | nil => simp [run_ops]
    | cons op rest ih =>
      simp only [List.cons_append, run_ops, List.foldlM_cons]
      cases op.run v with
      | none => simp
      | some v' => simp [run_ops, ih v']
  · intro i b v h
    simp [Op.run, h]
  · intro f t w v hf ht
    simp [Op.run, hf, ht]
  · intro i tf v h
    simp [Op.run, h]
  · rfl
  · norm_num [recurrent_example_genome, SparseNeuralNetGenome.new,
      SparseNeuralNetGenome.connect_node,
      SparseNeuralNetGenome.grow_num_nodes_if_needed, SparseNeuralNet.new,
      SparseNeuralNet.set_node_value, SparseNeuralNet.run,
      SparseNeuralNetGenome.run, run_ops, Op.run, TransferFn.call,
      TransferFn.IDENTITY, List.replicate, List.set_cons_zero,
      List.set_cons_succ]
    rfl
  · norm_num [recurrent_example_genome, SparseNeuralNetGenome.new,
      SparseNeuralNetGenome.connect_node,
      SparseNeuralNetGenome.grow_num_nodes_if_needed, SparseNeuralNet.new,
      SparseNeuralNet.set_node_value, SparseNeuralNet.run,
      SparseNeuralNetGenome.run, run_ops, Op.run, TransferFn.call,
      TransferFn.IDENTITY, List.replicate, List.set_cons_zero,
      List.set_cons_succ]
    exact ⟨by rfl, by norm_num [list_three_getElem_one]⟩

theorem run_ops_insertion_order_and_recurrence_witness :
    Op.run (Op.Bias 0 5) [(0 : ℚ)] = some ([(0 : ℚ)].set 0 5) ∧
    Op.run (Op.Connection 0 1 2) [(3 : ℚ), 4] =
      some ([(3 : ℚ), 4].set 1 (([(3 : ℚ), 4].getD 1 0) +
        2 * ([(3 : ℚ), 4].getD 0 0))) ∧
    Op.run (Op.Transfer 0 TransferFn.IDENTITY) [(7 : ℚ)] =
      some ([(7 : ℚ)].set 0 (TransferFn.IDENTITY.call ([(7 : ℚ)].getD 0 0))) :=
  ⟨run_ops_insertion_order_and_recurrence.2.1 0 5 [0] (by norm_num),
   run_ops_insertion_order_and_recurrence.2.2.1 0 1 2 [3, 4] (by norm_num)
     (by norm_num),
   run_ops_insertion_order_and_recurrence.2.2.2.1 0 TransferFn.IDENTITY [7]
     (by norm_num)⟩

/-! ### Well-formedness of constructed genomes (C10) -/

/-- Every index mentioned by the op is strictly below `n`. -/
def Op.indices_lt (op : Op) (n : ℕ) : Prop :=
  match op with
  | .Bias i _ => i < n
  | .Connection f t _ => f < n ∧ t < n
  | .Transfer i _ => i < n

/-- All op indices of the genome are strictly below its `num_nodes`. -/
def SparseNeuralNetGenome.well_formed (g : SparseNeuralNetGenome) : Prop :=
  ∀ op ∈ g.ops, op.indices_lt g.num_nodes

/-- A genome built only through `new` and a sequence of `connect_node` calls,
each call being (to_value_index, bias, from_value_weights). -/
def build_genome (transfer_fn : TransferFn)
    (calls : List (ℕ × ℚ × List (ℕ × ℚ))) : SparseNeuralNetGenome :=
  calls.foldl (fun g c => g.connect_node c.1 c.2.1 c.2.2)
    (SparseNeuralNetGenome.new transfer_fn)

lemma Op.indices_lt_mono {op : Op} {n m : ℕ} (h : op.indices_lt n)
    (hnm : n ≤ m) : op.indices_lt m := by
  cases op with
  | Bias i b => exact lt_of_lt_of_le h hnm
  | Connection f t w => exact ⟨lt_of_lt_of_le h.1 hnm, lt_of_lt_of_le h.2 hnm⟩
  | Transfer i tf => exact lt_of_lt_of_le h hnm

/-- The `from_value_weights` fold inside `connect_node` keeps the genome
well-formed, never shrinks `num_nodes`, and keeps the transfer function,
provided no input index hits the `u16` wrap at `65535`. -/
lemma connect_node_fold_invariant (to_value_index : ℕ)
    (fws : List (ℕ × ℚ)) (g : SparseNeuralNetGenome)
    (hwf : ∀ op ∈ g.ops, op.indices_lt g.num_nodes)
    (hto : to_value_index < g.num_nodes)
    (hfws : ∀ fw ∈ fws, fw.1 < 65535) :
    let g3 := fws.foldl
      (fun g fw =>
        let g' := g.grow_num_nodes_if_needed fw.1
        { g' with ops := g'.ops ++ [Op.Connection fw.1 to_value_index fw.2] })
      g
    (∀ op ∈ g3.ops, op.indices_lt g3.num_nodes) ∧
      to_value_index < g3.num_nodes ∧ g3.transfer_fn = g.transfer_fn := by
  induction fws generalizing g with
  | nil => exact ⟨hwf, hto, rfl⟩
  | cons fw rest ih =>
    simp only [List.foldl_cons]
    have hmod : (fw.1 + 1) % 65536 = fw.1 + 1 :=
      Nat.mod_eq_of_lt (by
        have := hfws fw (List.mem_cons_self _ _)
        omega)
    refine ih _ ?_ ?_ fun fw' h' => hfws fw' (List.mem_cons_of_mem _ h')
    · intro op hop
      simp only [SparseNeuralNetGenome.grow_num_nodes_if_needed,
        List.mem_append, List.mem_singleton] at hop
      rcases hop with hop | rfl
      · exact Op.indices_lt_mono (hwf op hop) (le_max_left _ _)
      · exact ⟨lt_of_lt_of_le (by rw [hmod]; exact Nat.lt_succ_self _)
            (le_max_right _ _),
          lt_of_lt_of_le hto (le_max_left _ _)⟩
    · exact lt_of_lt_of_le hto (le_max_left _ _)

/-- `connect_node` preserves well-formedness when every index it receives is
below the `u16` wrap point `65535`. -/
lemma connect_node_well_formed (g : SparseNeuralNetGenome)
    (to_value_index : ℕ) (bias : ℚ) (fws : List (ℕ × ℚ))
    (hwf : g.well_formed)
    (hto : to_value_index < 65535)
    (hfws : ∀ fw ∈ fws, fw.1 < 65535) :
    (g.connect_node to_value_index bias fws).well_formed := by
  unfold SparseNeuralNetGenome.connect_node
  have hmod : (to_value_index + 1) % 65536 = to_value_index + 1 :=
    Nat.mod_eq_of_lt (by omega)
  have h1 : ∀ op ∈ ({ g.grow_num_nodes_if_needed to_value_index with
      ops := (g.grow_num_nodes_if_needed to_value_index).ops ++
        [Op.Bias to_value_index bias] } : SparseNeuralNetGenome).ops,
      op.indices_lt (max g.num_nodes ((to_value_index + 1) % 65536)) := by
    intro op hop
    simp only [SparseNeuralNetGenome.grow_num_nodes_if_needed,
      List.mem_append, List.mem_singleton] at hop
    rcases hop with hop | rfl
    · exact Op.indices_lt_mono (hwf op hop) (le_max_left _ _)
    · exact lt_of_lt_of_le (by rw [hmod]; exact Nat.lt_succ_self _)
        (le_max_right _ _)
  have h2 := connect_node_fold_invariant to_value_index fws
    { g.grow_num_nodes_if_needed to_value_index with
      ops := (g.grow_num_nodes_if_needed to_value_index).ops ++
        [Op.Bias to_value_index bias] }
    h1 (lt_of_lt_of_le (by rw [hmod]; exact Nat.lt_succ_self _)
      (le_max_right _ _)) hfws
  intro op hop
  simp only [List.mem_append, List.mem_singleton] at hop
  rcases hop with hop | rfl
  · exact h2.1 op hop
  · exact h2.2.1

/-- Running a list of in-bounds ops on a buffer of the right length always
succeeds and preserves the buffer length. -/
lemma run_ops_of_indices_lt (ops : List Op) (n : ℕ)
    (hops : ∀ op ∈ ops, op.indices_lt n) :
    ∀ v : List ℚ, v.length = n →
      ∃ v', run_ops ops v = some v' ∧ v'.length = n := by
  induction ops with
  | nil => exact fun v hv => ⟨v, rfl, hv⟩
  | cons op rest ih =>
    intro v hv
    have hop := hops op (List.mem_cons_self _ _)
    have hrest : ∀ op ∈ rest, op.indices_lt n :=
      fun o ho => hops o (List.mem_cons_of_mem _ ho)
    have hstep : ∃ v₁, op.run v = some v₁ ∧ v₁.length = n := by
      cases op with
      | Bias i b =>
        have hi : i < v.length := by rw [hv]; exact hop
        exact ⟨v.set i b, by simp [Op.run, hi], by simp [hv]⟩
      | Connection f t w =>
        have hft : f < v.length ∧ t < v.length := by
          rw [hv]; exact hop
        exact ⟨v.set t (v.getD t 0 + w * v.getD f 0),
          by simp [Op.run, hft.1, hft.2], by simp [hv]⟩
      | Transfer i tf =>
        have hi : i < v.length := by rw [hv]; exact hop
        exact ⟨v.set i (tf.call (v.getD i 0)), by simp [Op.run, hi],
          by simp [hv]⟩
    obtain ⟨v₁, hrun, hlen⟩ := hstep
    obtain ⟨v', hrun', hlen'⟩ := ih hrest v₁ hlen
    refine ⟨v', ?_, hlen'⟩
    show run_ops (op :: rest) v = some v'
    rw [run_ops, List.foldlM_cons, hrun]
    exact hrun'

/-- C10, corrected: a genome built only through `new` and `connect_node`
with every index strictly below `u16::MAX = 65535` (so the `u16` increment
in `grow_num_nodes_if_needed` never wraps) mentions only indices strictly
below `num_nodes`; `SparseNeuralNet::new` allocates exactly `num_nodes`
values, and running the net (on any buffer of that length) executes every op
in bounds and never panics.  The unrestricted claim fails at index `65535`:
see the wraparound counterexample. -/
theorem built_genome_runs_in_bounds (transfer_fn : TransferFn)
    (calls : List (ℕ × ℚ × List (ℕ × ℚ)))
    (hbound : ∀ c ∈ calls, c.1 < 65535 ∧ ∀ fw ∈ c.2.2, fw.1 < 65535) :
    (build_genome transfer_fn calls).well_formed ∧
    (SparseNeuralNet.new (build_genome transfer_fn calls)).node_values.length =
      (build_genome transfer_fn calls).num_nodes ∧
    (∀ v : List ℚ, v.length = (build_genome transfer_fn calls).num_nodes →
      ∃ v', run_ops (build_genome transfer_fn calls).ops v = some v' ∧
        v'.length = v.length) ∧
    ∃ net', (SparseNeuralNet.new (build_genome transfer_fn calls)).run =
      some net' := by
  have hwf : (build_genome transfer_fn calls).well_formed := by
    unfold build_genome
    suffices h : ∀ (cs : List (ℕ × ℚ × List (ℕ × ℚ))),
        (∀ c ∈ cs, c.1 < 65535 ∧ ∀ fw ∈ c.2.2, fw.1 < 65535) →
        ∀ g : SparseNeuralNetGenome, g.well_formed →
        (cs.foldl (fun g c => g.connect_node c.1 c.2.1 c.2.2) g).well_formed by
      exact h calls hbound _
        (by intro op hop; simp [SparseNeuralNetGenome.new] at hop)
    intro cs
    induction cs with
    | nil => exact fun _ g h => h
    | cons c rest ih =>
      intro hb g h
      exact ih (fun c' h' => hb c' (List.mem_cons_of_mem _ h')) _
        (connect_node_well_formed g c.1 c.2.1 c.2.2 h
          (hb c (List.mem_cons_self _ _)).1
          (hb c (List.mem_cons_self _ _)).2)
  refine ⟨hwf, by simp [SparseNeuralNet.new], ?_, ?_⟩
  · intro v hv
    obtain ⟨v', h1, h2⟩ := run_ops_of_indices_lt _ _ hwf v hv
    exact ⟨v', h1, by rw [h2, hv]⟩
  · obtain ⟨v', h1, _⟩ := run_ops_of_indices_lt _ _ hwf
      (List.replicate (build_genome transfer_fn calls).num_nodes 0)
      (by simp)
    refine ⟨{ genome := build_genome transfer_fn calls, node_values := v' }, ?_⟩
    simp [SparseNeuralNet.run, SparseNeuralNet.new,
      SparseNeuralNetGenome.run, h1]

theorem built_genome_runs_in_bounds_witness :
    (∀ c ∈ [((1 : ℕ), (0 : ℚ), [((0 : ℕ), (1 : ℚ)), (2, 2)]),
        (2, 0, [(1, 1)])], c.1 < 65535 ∧ ∀ fw ∈ c.2.2, fw.1 < 65535) ∧
    ([(1 : ℚ), 2, 3].length =
      (build_genome TransferFn.IDENTITY
        [(1, 0, [(0, 1), (2, 2)]), (2, 0, [(1, 1)])]).num_nodes) ∧
    ∃ v', run_ops (build_genome TransferFn.IDENTITY
        [(1, 0, [(0, 1), (2, 2)]), (2, 0, [(1, 1)])]).ops [(1 : ℚ), 2, 3] =
      some v' ∧ v'.length = [(1 : ℚ), 2, 3].length :=
  ⟨by decide, rfl, (built_genome_runs_in_bounds TransferFn.IDENTITY
    [(1, 0, [(0, 1), (2, 2)]), (2, 0, [(1, 1)])] (by decide)).2.2.1
    [1, 2, 3] rfl⟩

/-- C10's counterexample to the unrestricted claim: `connect_node(65535, …)`
wraps `new_index + 1` to `0` in the `u16` of `grow_num_nodes_if_needed`, so
`num_nodes` stays `0` while the pushed ops carry index `65535`; the genome is
not well-formed, `SparseNeuralNet::new` allocates an empty value buffer, and
`run` indexes out of bounds (the `none` that models the panic). -/
theorem connect_node_wraps_at_u16_max :
    ((SparseNeuralNetGenome.new TransferFn.IDENTITY).connect_node
      65535 0 []).num_nodes = 0 ∧
    ((SparseNeuralNetGenome.new TransferFn.IDENTITY).connect_node
      65535 0 []).ops.length = 2 ∧
    (Op.Bias 65535 0) ∈ ((SparseNeuralNetGenome.new
      TransferFn.IDENTITY).connect_node 65535 0 []).ops ∧
    ¬ ((SparseNeuralNetGenome.new TransferFn.IDENTITY).connect_node
      65535 0 []).well_formed ∧
    (SparseNeuralNet.new ((SparseNeuralNetGenome.new
      TransferFn.IDENTITY).connect_node 65535 0 [])).run = none := by
  have hmem : (Op.Bias 65535 0) ∈ ((SparseNeuralNetGenome.new
      TransferFn.IDENTITY).connect_node 65535 0 []).ops := by
    simp [SparseNeuralNetGenome.connect_node, SparseNeuralNetGenome.new,
      SparseNeuralNetGenome.grow_num_nodes_if_needed]
  refine ⟨rfl, rfl, hmem, ?_, rfl⟩
  intro hwf
  have hlt := hwf _ hmem
  have h0 : ((SparseNeuralNetGenome.new TransferFn.IDENTITY).connect_node
      65535 0 []).num_nodes = 0 := rfl
  rw [Op.indices_lt, h0] at hlt
  exact absurd hlt (by omega)

/-! ### Spawn preserves genome structure (C9) -/

/-- `copy_with_mutated_weights` with a mutation function that never changes
the weight copies the op list verbatim. -/
lemma copy_with_mutated_weights_id {S : Type} (mutate : S → ℚ → ℚ × S)
    (hid : ∀ s w, (mutate s w).1 = w) :
    ∀ (ops : List Op) (s : S), (copy_with_mutated_weights mutate ops s).1 = ops := by
  intro ops
  induction ops with
  | nil => intro s; rfl
  | cons op rest ih =>
    intro s
    cases op with
    | Bias i b => simp [copy_with_mutated_weights, hid, ih]
    | Connection f t w => simp [copy_with_mutated_weights, hid, ih]
    | Transfer i tf => simp [copy_with_mutated_weights, ih]

/-- Under `NO_MUTATION` parameters (probability 0), `mutate_weight` returns
the weight unchanged for every uniform draw in `[0,1)`. -/
lemma mutate_weight_no_mutation (r : SeededMutationRandomness)
    (hp : r.mutation_parameters = MutationParameters.NO_MUTATION)
    (hdraws : ∀ n, 0 ≤ r.uniform_draws n) (w : ℚ) :
    (r.mutate_weight w).1 = w ∧
      (r.mutate_weight w).2.mutation_parameters = r.mutation_parameters ∧
      (r.mutate_weight w).2.uniform_draws = r.uniform_draws := by
  have hlt : ¬ r.uniform_draws r.step <
      r.mutation_parameters.weight_mutation_probability := by
    rw [hp]
    exact not_lt.mpr (hdraws r.step)
  simp [SeededMutationRandomness.mutate_weight, hlt]

/-- `copy_with_mutated_weights` under a `NO_MUTATION` seeded randomness
state copies the op list verbatim. -/
lemma copy_no_mutation (ops : List Op) :
    ∀ (r : SeededMutationRandomness),
      r.mutation_parameters = MutationParameters.NO_MUTATION →
      (∀ n, 0 ≤ r.uniform_draws n) →
      (copy_with_mutated_weights SeededMutationRandomness.mutate_weight ops r).1
        = ops := by
  induction ops with
  | nil => intro r _ _; rfl
  | cons op rest ih =>
    intro r hp hdraws
    cases op with
    | Bias i b =>
      obtain ⟨h1, h2, h3⟩ := mutate_weight_no_mutation r hp hdraws b
      simp [copy_with_mutated_weights, h1,
        ih _ (h2.trans hp) (by rw [h3]; exact hdraws)]
    | Connection f t w =>
      obtain ⟨h1, h2, h3⟩ := mutate_weight_no_mutation r hp hdraws w
      simp [copy_with_mutated_weights, h1,
        ih _ (h2.trans hp) (by rw [h3]; exact hdraws)]
    | Transfer i tf =>
      simp [copy_with_mutated_weights, ih _ hp hdraws]

/-- C9: `spawn` with any mutation randomness only resamples the numeric
coefficients: the number, order, kind and value indices of the ops, the
transfer function and `num_nodes` are all preserved; and under the
`NO_MUTATION` parameters the spawned op list is equal to the parent's. -/
theorem spawn_preserves_structure :
    (∀ (g : SparseNeuralNetGenome) (S : Type) (mutate : S → ℚ → ℚ × S) (s : S),
        (g.spawn mutate s).1.num_nodes = g.num_nodes ∧
        (g.spawn mutate s).1.transfer_fn = g.transfer_fn ∧
        List.Forall₂ Op.same_structure g.ops (g.spawn mutate s).1.ops) ∧
    (∀ (g : SparseNeuralNetGenome) (r : SeededMutationRandomness),
        r.mutation_parameters = MutationParameters.NO_MUTATION →
        (∀ n, 0 ≤ r.uniform_draws n) →
        (g.spawn SeededMutationRandomness.mutate_weight r).1.ops = g.ops ∧
        (g.spawn SeededMutationRandomness.mutate_weight r).1.num_nodes =
          g.num_nodes ∧
        (g.spawn SeededMutationRandomness.mutate_weight r).1.transfer_fn =
          g.transfer_fn) := by
  constructor
  · intro g S mutate s
    refine ⟨rfl, rfl, ?_⟩
    show List.Forall₂ Op.same_structure g.ops
      (copy_with_mutated_weights mutate g.ops s).1
    generalize g.ops = ops
    induction ops generalizing s with
    | nil => exact List.Forall₂.nil
    | cons op rest ih =>
      cases op with
      | Bias i b =>
        exact List.Forall₂.cons (by simp [Op.same_structure]) (ih _)
      | Connection f t w =>
        exact List.Forall₂.cons (by simp [Op.same_structure]) (ih _)
      | Transfer i tf =>
        exact List.Forall₂.cons (by simp [Op.same_structure]) (ih _)
  · intro g r hp hdraws
    exact ⟨copy_no_mutation g.ops r hp hdraws, rfl, rfl⟩

/-- Randomness with all-zero oracle streams and `NO_MUTATION` parameters. -/
def no_mutation_randomness : SeededMutationRandomness :=
  ⟨MutationParameters.NO_MUTATION, fun _ => 0, fun _ => 0, 0⟩

theorem spawn_preserves_structure_witness :
    (recurrent_example_genome.spawn
        SeededMutationRandomness.mutate_weight no_mutation_randomness).1.ops =
      recurrent_example_genome.ops ∧
    (recurrent_example_genome.spawn
        SeededMutationRandomness.mutate_weight
          no_mutation_randomness).1.num_nodes =
      recurrent_example_genome.num_nodes ∧
    (recurrent_example_genome.spawn
        SeededMutationRandomness.mutate_weight
          no_mutation_randomness).1.transfer_fn =
      recurrent_example_genome.transfer_fn :=
  spawn_preserves_structure.2 recurrent_example_genome no_mutation_randomness
    rfl (fun _ => le_refl 0)

/-! ## Cell layers (`evo_domain/src/biology/layers.rs`)

The layer body carries area, density, mass, health, the parameter structs
and the brain discriminant (`Living`/`Dead`).  The `outer_radius` field is
omitted: it is square-root geometry recomputed from the area by
`update_outer_radius` and none of the verified properties mention it.
Specialties are the tagged variants `Null`, `Thruster`, `Photo`, `Bonding`.
Panics (invalid control channel index) are modelled by `Option`. -/

structure LayerHealthParameters where
  healing_energy_delta : ℚ
  entropic_damage_health_delta : ℚ
  overlap_damage_health_delta : ℚ
  deriving DecidableEq, Repr

def LayerHealthParameters.DEFAULT : LayerHealthParameters := ⟨0, 0, 0⟩

structure LayerResizeParameters where
  growth_energy_delta : ℚ
  max_growth_rate : ℚ
  shrinkage_energy_delta : ℚ
  max_shrinkage_rate : ℚ
  deriving DecidableEq, Repr

structure Overlap where
  magnitude : ℚ
  deriving DecidableEq, Repr

structure LocalEnvironment where
  light_intensity : ℚ
  overlaps : List Overlap
  deriving DecidableEq, Repr

inductive CellLayerBrain where
  | living
  | dead
  deriving DecidableEq, Repr

inductive CellLayerSpecialty where
  | null
  | thruster (force_x : ℚ) (force_y : ℚ)
  | photo (efficiency : ℚ)
  | bonding
  deriving DecidableEq, Repr

structure CellLayerBody where
  area : ℚ
  density : ℚ
  mass : ℚ
  health : ℚ
  brain : CellLayerBrain
  health_parameters : LayerHealthParameters
  resize_parameters : LayerResizeParameters
  deriving DecidableEq, Repr

structure CellLayer where
  body : CellLayerBody
  specialty : CellLayerSpecialty
  deriving DecidableEq, Repr

structure BondRequest where
  retain_bond : Bool
  budding_angle : ℚ
  donation_energy : ℚ
  deriving DecidableEq, Repr

def BondRequest.NONE : BondRequest := ⟨false, 0, 0⟩

def MAX_BONDS : ℕ := 8

def NONE_BOND_REQUESTS : List BondRequest := List.replicate MAX_BONDS BondRequest.NONE

structure CellLayerChanges where
  health : ℚ
  area : ℚ
  deriving DecidableEq, Repr

structure CellChanges where
  energy : ℚ
  layers : List CellLayerChanges
  deriving DecidableEq, Repr

def HEALING_CHANNEL_INDEX : ℕ := 0
def RESIZE_CHANNEL_INDEX : ℕ := 1

/-- `CellLayerBody::damage`: health floors at 0 (the source asserts
`health_loss ≥ 0`; theorems carry that as a hypothesis). -/
def CellLayerBody.damage (body : CellLayerBody) (health_loss : ℚ) : CellLayerBody :=
  { body with health := max (body.health - health_loss) 0 }

/-- `CellLayerBody::resize`: the mass is recomputed from the new area. -/
def CellLayerBody.resize (body : CellLayerBody) (delta_area : ℚ) : CellLayerBody :=
  let area := body.area + delta_area
  { body with area := area, mass := area * body.density }

def CellLayerBody.cost_restore_health (body : CellLayerBody)
    (request : ControlRequest) : CostedControlRequest :=
  CostedControlRequest.unlimited request
    (body.health_parameters.healing_energy_delta * body.area *
      request.requested_value)

def CellLayerBody.bound_resize_delta_area (body : CellLayerBody)
    (requested_delta_area : ℚ) : ℚ :=
  if 0 ≤ requested_delta_area then
    min requested_delta_area (body.resize_parameters.max_growth_rate * body.area)
  else
    max requested_delta_area (-body.resize_parameters.max_shrinkage_rate * body.area)

def CellLayerBody.cost_resize (body : CellLayerBody)
    (request : ControlRequest) : CostedControlRequest :=
  let delta_area := body.bound_resize_delta_area request.requested_value
  let energy_delta_per_area :=
    if 0 ≤ request.requested_value then body.resize_parameters.growth_energy_delta
    else -body.resize_parameters.shrinkage_energy_delta
  CostedControlRequest.limited request delta_area (delta_area * energy_delta_per_area)

def CellLayerBody.restore_health (body : CellLayerBody) (delta_health : ℚ) :
    CellLayerBody :=
  { body with health := body.health + delta_health }

/-- `CellLayerBody::actual_delta_health` (the source asserts the requested
delta is non-negative). -/
def CellLayerBody.actual_delta_health (body : CellLayerBody)
    (requested_delta_health budgeted_fraction : ℚ) : ℚ :=
  min (budgeted_fraction * requested_delta_health) (1 - body.health)

def CellLayerBody.actual_delta_area (body : CellLayerBody)
    (requested_delta_area budgeted_fraction : ℚ) : ℚ :=
  max (body.health * budgeted_fraction *
    body.bound_resize_delta_area requested_delta_area) (-body.area)

/-- `LivingCellLayerBrain::damage`: floor at zero, then swap to the dead
brain exactly when the health has reached 0.  `DeadCellLayerBrain::damage`
is a no-op. -/
def CellLayer.damage (layer : CellLayer) (health_loss : ℚ) : CellLayer :=
  match layer.body.brain with
  | .living =>
      let body := layer.body.damage health_loss
      if body.health = 0 then
        { layer with body := { body with brain := .dead } }
      else { layer with body := body }
  | .dead => layer

/-- `CellLayerSpecialty::after_influences` (trait default yields zeros; the
thruster reports its stored force; the photo layer produces
`light · efficiency · health · area`). -/
def specialty_after_influences (specialty : CellLayerSpecialty)
    (body : CellLayerBody) (env : LocalEnvironment) : ℚ × (ℚ × ℚ) :=
  match specialty with
  | .thruster force_x force_y => (0, (force_x, force_y))
  | .photo efficiency =>
      (env.light_intensity * efficiency * body.health * body.area, (0, 0))
  | _ => (0, (0, 0))

/-- `CellLayer::after_influences`, both brains: the living brain first takes
entropic damage, then overlap damage, then delegates to the specialty; the
dead brain yields zero energy and zero force and leaves everything
unchanged.  (Both health losses pass through the living brain's `damage`,
so they can flip the brain to dead.) -/
def CellLayer.after_influences (layer : CellLayer) (env : LocalEnvironment) :
    (ℚ × (ℚ × ℚ)) × CellLayer :=
  match layer.body.brain with
  | .dead => ((0, (0, 0)), layer)
  | .living =>
      let l1 := layer.damage (-layer.body.health_parameters.entropic_damage_health_delta)
      let overlap_damage := env.overlaps.foldl
        (fun total_damage overlap =>
          total_damage +
            layer.body.health_parameters.overlap_damage_health_delta *
              overlap.magnitude) 0
      let l2 := l1.damage (-overlap_damage)
      (specialty_after_influences l2.specialty l2.body env, l2)

/-- `CellLayerSpecialty::cost_control_request`: `none` is the
invalid-channel panic. -/
def specialty_cost_control_request (specialty : CellLayerSpecialty)
    (request : ControlRequest) : Option CostedControlRequest :=
  match specialty with
  | .thruster _ _ =>
      if request.channel_index = 2 ∨ request.channel_index = 3 then
        some (CostedControlRequest.free request)
      else none
  | .bonding =>
      if request.channel_index = 2 ∨ request.channel_index = 3 then
        some (CostedControlRequest.free request)
      else if request.channel_index = 4 then
        some (CostedControlRequest.unlimited request (-request.requested_value))
      else none
  | _ => none

/-- `CellLayer::cost_control_request`, both brains. -/
def CellLayer.cost_control_request (layer : CellLayer)
    (request : ControlRequest) : Option CostedControlRequest :=
  match layer.body.brain with
  | .dead => some (CostedControlRequest.free request)
  | .living =>
      if request.channel_index = HEALING_CHANNEL_INDEX then
        some (layer.body.cost_restore_health request)
      else if request.channel_index = RESIZE_CHANNEL_INDEX then
        some (layer.body.cost_resize request)
      else specialty_cost_control_request layer.specialty request

/-- `CellLayerSpecialty::execute_control_request`: the thruster stores the
health- and budget-scaled force components; the bonding specialty writes the
bond request at `value_index`; `none` is the invalid-channel panic. -/
def specialty_execute_control_request (specialty : CellLayerSpecialty)
    (body : CellLayerBody) (request : BudgetedControlRequest)
    (bond_requests : List BondRequest) :
    Option (CellLayerSpecialty × List BondRequest) :=
  match specialty with
  | .thruster force_x force_y =>
      if request.control_request.channel_index = 2 then
        some (.thruster
          (body.health * request.budgeted_fraction * request.requested_value)
          force_y, bond_requests)
      else if request.control_request.channel_index = 3 then
        some (.thruster force_x
          (body.health * request.budgeted_fraction * request.requested_value),
          bond_requests)
      else none
  | .bonding =>
      let i := request.control_request.value_index
      let bond_request := bond_requests.getD i BondRequest.NONE
      if request.control_request.channel_index = 2 then
        some (.bonding, bond_requests.set i
          { bond_request with retain_bond := 0 < request.requested_value })
      else if request.control_request.channel_index = 3 then
        some (.bonding, bond_requests.set i
          { bond_request with budding_angle := request.requested_value })
      else if request.control_request.channel_index = 4 then
        some (.bonding, bond_requests.set i
          { bond_request with donation_energy :=
              body.health * request.budgeted_fraction * request.requested_value })
      else none
  | _ => none

/-- `CellLayer::execute_control_request`, both brains: the dead brain does
nothing at all; the living brain heals, resizes or delegates to the
specialty, recording the deltas into the tick's `CellChanges`. -/
def CellLayer.execute_control_request (layer : CellLayer)
    (request : BudgetedControlRequest) (bond_requests : List BondRequest)
    (changes : CellChanges) :
    Option (CellLayer × List BondRequest × CellChanges) :=
  match layer.body.brain with
  | .dead => some (layer, bond_requests, changes)
  | .living =>
      if request.control_request.channel_index = HEALING_CHANNEL_INDEX then
        let delta_health := layer.body.actual_delta_health
          request.requested_value request.budgeted_fraction
        let layer_index := request.control_request.layer_index
        let layer_changes := changes.layers.getD layer_index ⟨0, 0⟩
        let new_layers := changes.layers.set layer_index
          { layer_changes with health := layer_changes.health + delta_health }
        some ({ layer with body := layer.body.restore_health delta_health },
          bond_requests, { changes with layers := new_layers })
      else if request.control_request.channel_index = RESIZE_CHANNEL_INDEX then
        let delta_area := layer.body.actual_delta_area
          request.requested_value request.budgeted_fraction
        let layer_index := request.control_request.layer_index
        let layer_changes := changes.layers.getD layer_index ⟨0, 0⟩
        let new_layers := changes.layers.set layer_index
          { layer_changes with area := layer_changes.area + delta_area }
        let new_energy := changes.energy +
          request.energy_delta * request.budgeted_fraction
        some ({ layer with body := layer.body.resize delta_area },
          bond_requests, { changes with energy := new_energy, layers := new_layers })
      else
        (specialty_execute_control_request layer.specialty layer.body request
          bond_requests).map fun sb =>
            ({ layer with specialty := sb.1 }, sb.2, changes)

/-- C6: once a living layer's health is driven to 0 by `damage`, its brain
becomes `dead`; and a dead layer is absorbing: `damage` has no effect,
`after_influences` yields zero energy and zero force (so a dead photo layer
produces no energy and a dead thruster no force) and leaves the layer
unchanged, `cost_control_request` prices every request as free, and
`execute_control_request` changes nothing. -/
theorem dead_brain_is_absorbing (layer : CellLayer) :
    (∀ health_loss : ℚ, layer.body.brain = .living →
      layer.body.health ≤ health_loss →
      (layer.damage health_loss).body.brain = .dead ∧
        (layer.damage health_loss).body.health = 0) ∧
    (layer.body.brain = .dead →
      (∀ health_loss : ℚ, layer.damage health_loss = layer) ∧
      (∀ env : LocalEnvironment,
        layer.after_influences env = ((0, (0, 0)), layer)) ∧
      (∀ request : ControlRequest,
        layer.cost_control_request request =
          some (CostedControlRequest.free request)) ∧
      (∀ (request : BudgetedControlRequest) (bond_requests : List BondRequest)
          (changes : CellChanges),
        layer.execute_control_request request bond_requests changes =
          some (layer, bond_requests, changes))) := by
  constructor
  · intro health_loss hliving hle
    have hzero : (layer.body.damage health_loss).health = 0 := by
      simp only [CellLayerBody.damage]
      exact max_eq_right (by linarith)
    have hd : layer.damage health_loss =
        { layer with body :=
            { layer.body.damage health_loss with brain := .dead } } := by
      simp only [CellLayer.damage, hliving]
      rw [if_pos hzero]
    rw [hd]
    exact ⟨rfl, hzero⟩
  · intro hdead
    refine ⟨?_, ?_, ?_, ?_⟩
    · intro health_loss
      simp [CellLayer.damage, hdead]
    · intro env
      simp [CellLayer.after_influences, hdead]
    · intro request
      simp [CellLayer.cost_control_request, hdead]
    · intro request bond_requests changes
      simp [CellLayer.execute_control_request, hdead]

/-- A dead photo layer used as the C6 witness. -/
def dead_photo_layer : CellLayer :=
  ⟨⟨1, 1, 1, 0, .dead, LayerHealthParameters.DEFAULT, ⟨0, 1, 0, 1⟩⟩, .photo 1⟩

/-- A living layer with full health used as the C6 witness. -/
def living_witness_layer : CellLayer :=
  ⟨⟨1, 1, 1, 1, .living, LayerHealthParameters.DEFAULT, ⟨0, 1, 0, 1⟩⟩, .null⟩

theorem dead_brain_is_absorbing_witness :
    ((living_witness_layer.damage 2).body.brain = .dead ∧
      (living_witness_layer.damage 2).body.health = 0) ∧
    (dead_photo_layer.damage 1 = dead_photo_layer ∧
      dead_photo_layer.after_influences ⟨10, []⟩ = ((0, (0, 0)), dead_photo_layer) ∧
      dead_photo_layer.cost_control_request ⟨0, 0, 0, 1⟩ =
        some (CostedControlRequest.free ⟨0, 0, 0, 1⟩) ∧
      dead_photo_layer.execute_control_request ⟨⟨0, 0, 0, 1⟩, 1, 0, 1⟩
          NONE_BOND_REQUESTS ⟨0, [⟨0, 0⟩]⟩ =
        some (dead_photo_layer, NONE_BOND_REQUESTS, ⟨0, [⟨0, 0⟩]⟩)) := by
  have hdead := (dead_brain_is_absorbing dead_photo_layer).2 rfl
  exact ⟨(dead_brain_is_absorbing living_witness_layer).1 2 rfl
      (by norm_num [living_witness_layer]),
    hdead.1 1, hdead.2.1 ⟨10, []⟩, hdead.2.2.1 ⟨0, 0, 0, 1⟩,
    hdead.2.2.2 ⟨⟨0, 0, 0, 1⟩, 1, 0, 1⟩ NONE_BOND_REQUESTS ⟨0, [⟨0, 0⟩]⟩⟩

/-- C7: costing a RESIZE request clamps the requested area delta to
`[−max_shrinkage_rate·area, +max_growth_rate·area]` and prices it at
`clamped · growth_energy_delta` (non-negative request) or
`clamped · (−shrinkage_energy_delta)` (negative request); executing it
changes the area by `max(−area, health · budgeted_fraction · clamped)`,
recomputes `mass = area · density`, and records an energy change of
`energy_delta · budgeted_fraction`. -/
theorem resize_cost_and_execute (layer : CellLayer)
    (request : BudgetedControlRequest) (bond_requests : List BondRequest)
    (changes : CellChanges)
    (harea : 0 ≤ layer.body.area)
    (hgrow : 0 ≤ layer.body.resize_parameters.max_growth_rate)
    (hshrink : 0 ≤ layer.body.resize_parameters.max_shrinkage_rate)
    (hliving : layer.body.brain = .living)
    (hchannel : request.control_request.channel_index = RESIZE_CHANNEL_INDEX) :
    (layer.body.cost_resize request.control_request =
      CostedControlRequest.limited request.control_request
        (max (-(layer.body.resize_parameters.max_shrinkage_rate * layer.body.area))
          (min request.control_request.requested_value
            (layer.body.resize_parameters.max_growth_rate * layer.body.area)))
        (layer.body.bound_resize_delta_area request.control_request.requested_value *
          (if 0 ≤ request.control_request.requested_value then
            layer.body.resize_parameters.growth_energy_delta
          else -layer.body.resize_parameters.shrinkage_energy_delta))) ∧
    ∃ result, layer.execute_control_request request bond_requests changes =
        some result ∧
      result.1.body.area = layer.body.area +
        max (-layer.body.area)
          (layer.body.health * request.budgeted_fraction *
            layer.body.bound_resize_delta_area request.requested_value) ∧
      result.1.body.mass = result.1.body.area * layer.body.density ∧
      result.2.2.energy = changes.energy +
        request.energy_delta * request.budgeted_fraction ∧
      result.2.1 = bond_requests := by
  constructor
  · unfold CellLayerBody.cost_resize
    have hclamp : layer.body.bound_resize_delta_area
        request.control_request.requested_value =
        max (-(layer.body.resize_parameters.max_shrinkage_rate * layer.body.area))
          (min request.control_request.requested_value
            (layer.body.resize_parameters.max_growth_rate * layer.body.area)) := by
      unfold CellLayerBody.bound_resize_delta_area
      have hsa : 0 ≤ layer.body.resize_parameters.max_shrinkage_rate *
          layer.body.area := mul_nonneg hshrink harea
      have hga : 0 ≤ layer.body.resize_parameters.max_growth_rate *
          layer.body.area := mul_nonneg hgrow harea
      by_cases hr : 0 ≤ request.control_request.requested_value
      · rw [if_pos hr, max_eq_right]
        exact le_min (by linarith) (by linarith)
      · rw [if_neg hr]
        have hrg : request.control_request.requested_value ≤
            layer.body.resize_parameters.max_growth_rate * layer.body.area := by
          linarith [not_le.mp hr]
        rw [min_eq_left hrg, neg_mul, max_comm]
    rw [hclamp]
  · set delta_area := layer.body.actual_delta_area request.requested_value
      request.budgeted_fraction with hda
    set layer_changes := changes.layers.getD
      request.control_request.layer_index ⟨0, 0⟩ with hlc
    set new_layers := changes.layers.set request.control_request.layer_index
      { layer_changes with area := layer_changes.area + delta_area } with hnl
    set new_energy := changes.energy +
      request.energy_delta * request.budgeted_fraction with hne
    refine ⟨({ layer with body := layer.body.resize delta_area },
      bond_requests,
      { changes with energy := new_energy, layers := new_layers }),
      ?_, ?_, ?_, ?_, ?_⟩
    · simp only [CellLayer.execute_control_request, hliving, hchannel,
        RESIZE_CHANNEL_INDEX, HEALING_CHANNEL_INDEX]
      norm_num
      simp only [hnl, hlc, List.getD, hda, List.get?_eq_getElem?]
    · simp only [CellLayerBody.resize, hda, CellLayerBody.actual_delta_area,
        max_comm]
    · rfl
    · rfl
    · rfl

def resize_witness_layer : CellLayer :=
  ⟨⟨2, 1, 2, 1, .living, LayerHealthParameters.DEFAULT, ⟨-3, 1/2, 0, 1⟩⟩, .null⟩

def resize_witness_request : BudgetedControlRequest :=
  ⟨⟨0, RESIZE_CHANNEL_INDEX, 0, 10⟩, 1, -3, 1⟩

theorem resize_cost_and_execute_witness :
    (resize_witness_layer.body.cost_resize resize_witness_request.control_request =
      CostedControlRequest.limited resize_witness_request.control_request
        (max (-(resize_witness_layer.body.resize_parameters.max_shrinkage_rate *
            resize_witness_layer.body.area))
          (min resize_witness_request.control_request.requested_value
            (resize_witness_layer.body.resize_parameters.max_growth_rate *
              resize_witness_layer.body.area)))
        (resize_witness_layer.body.bound_resize_delta_area
            resize_witness_request.control_request.requested_value *
          (if 0 ≤ resize_witness_request.control_request.requested_value then
            resize_witness_layer.body.resize_parameters.growth_energy_delta
          else -resize_witness_layer.body.resize_parameters.shrinkage_energy_delta))) ∧
    ∃ result, resize_witness_layer.execute_control_request resize_witness_request
        NONE_BOND_REQUESTS ⟨0, [⟨0, 0⟩]⟩ = some result ∧
      result.1.body.area = resize_witness_layer.body.area +
        max (-resize_witness_layer.body.area)
          (resize_witness_layer.body.health *
            resize_witness_request.budgeted_fraction *
            resize_witness_layer.body.bound_resize_delta_area
              resize_witness_request.requested_value) ∧
      result.1.body.mass = result.1.body.area * resize_witness_layer.body.density ∧
      result.2.2.energy = (0 : ℚ) +
        resize_witness_request.energy_delta *
          resize_witness_request.budgeted_fraction ∧
      result.2.1 = NONE_BOND_REQUESTS :=
  resize_cost_and_execute resize_witness_layer resize_witness_request
    NONE_BOND_REQUESTS ⟨0, [⟨0, 0⟩]⟩ (by norm_num [resize_witness_layer])
    (by norm_num [resize_witness_layer]) (by norm_num [resize_witness_layer])
    rfl rfl

/-! ### Per-tick invariants (C4) -/

/-- The quantified layer invariant of the spec: health in `[0,1]`, area
non-negative, mass = area · density. -/
def LayerInvariant (l : CellLayer) : Prop :=
  0 ≤ l.body.health ∧ l.body.health ≤ 1 ∧ 0 ≤ l.body.area ∧
    l.body.mass = l.body.area * l.body.density

/-- One state change of a layer during a tick, with the side conditions the
source asserts or validates: `damage` takes a non-negative loss,
`after_influences` runs with validated health parameters (entropic and
overlap damage deltas ≤ 0) and non-negative overlap magnitudes, and
`execute_control_request` receives a budgeted fraction in `[0,1]` and a
non-negative requested healing delta.  Modelled from the spec: the per-tick
driver (`Cell::tick` in the missing cell.rs) invokes exactly these layer
operations. -/
inductive LayerTickStep : CellLayer → CellLayer → Prop where
  | damage (l : CellLayer) (health_loss : ℚ) (h : 0 ≤ health_loss) :
      LayerTickStep l (l.damage health_loss)
  | after_influences (l : CellLayer) (env : LocalEnvironment)
      (hent : l.body.health_parameters.entropic_damage_health_delta ≤ 0)
      (hov : l.body.health_parameters.overlap_damage_health_delta ≤ 0)
      (hmag : ∀ o ∈ env.overlaps, 0 ≤ o.magnitude) :
      LayerTickStep l (l.after_influences env).2
  | execute (l : CellLayer) (request : BudgetedControlRequest)
      (bond_requests : List BondRequest) (changes : CellChanges)
      (result : CellLayer × List BondRequest × CellChanges)
      (hf0 : 0 ≤ request.budgeted_fraction)
      (hf1 : request.budgeted_fraction ≤ 1)
      (hreq : request.control_request.channel_index = HEALING_CHANNEL_INDEX →
        0 ≤ request.requested_value)
      (h : l.execute_control_request request bond_requests changes = some result) :
      LayerTickStep l result.1

lemma damage_preserves_invariant (l : CellLayer) (health_loss : ℚ)
    (hloss : 0 ≤ health_loss) (hinv : LayerInvariant l) :
    LayerInvariant (l.damage health_loss) := by
  obtain ⟨h0, h1, ha, hm⟩ := hinv
  unfold CellLayer.damage
  cases hbrain : l.body.brain with
  | dead => exact ⟨h0, h1, ha, hm⟩
  | living =>
    by_cases hz : (l.body.damage health_loss).health = 0
    · simp only [if_pos hz]
      exact ⟨by simp [CellLayerBody.damage], by
        simp only [CellLayerBody.damage]
        exact le_trans (max_le (by linarith) (by norm_num)) le_rfl, ha, hm⟩
    · simp only [if_neg hz]
      exact ⟨le_max_right _ _, max_le (by linarith) (by norm_num), ha, hm⟩

lemma after_influences_preserves_invariant (l : CellLayer)
    (env : LocalEnvironment)
    (hent : l.body.health_parameters.entropic_damage_health_delta ≤ 0)
    (hov : l.body.health_parameters.overlap_damage_health_delta ≤ 0)
    (hmag : ∀ o ∈ env.overlaps, 0 ≤ o.magnitude)
    (hinv : LayerInvariant l) :
    LayerInvariant (l.after_influences env).2 := by
  unfold CellLayer.after_influences
  cases hbrain : l.body.brain with
  | dead => exact hinv
  | living =>
    have hfold : ∀ (init : ℚ), init ≤ 0 →
        env.overlaps.foldl
          (fun total_damage overlap =>
            total_damage +
              l.body.health_parameters.overlap_damage_health_delta *
                overlap.magnitude) init ≤ 0 := by
      have : ∀ (os : List Overlap), (∀ o ∈ os, 0 ≤ o.magnitude) →
          ∀ (init : ℚ), init ≤ 0 →
          os.foldl (fun total_damage overlap =>
            total_damage +
              l.body.health_parameters.overlap_damage_health_delta *
                overlap.magnitude) init ≤ 0 := by
        intro os
        induction os with
        | nil => exact fun _ init h => h
        | cons o rest ih =>
          intro hos init hinit
          rw [List.foldl_cons]
          refine ih (fun o' ho' => hos o' (List.mem_cons_of_mem _ ho')) _ ?_
          have := mul_nonpos_of_nonpos_of_nonneg hov
            (hos o (List.mem_cons_self _ _))
          linarith
      exact this env.overlaps hmag
    refine damage_preserves_invariant _ _ ?_
      (damage_preserves_invariant _ _ (by linarith) hinv)
    have := hfold 0 le_rfl
    linarith

lemma execute_preserves_invariant (l : CellLayer)
    (request : BudgetedControlRequest) (bond_requests : List BondRequest)
    (changes : CellChanges) (result : CellLayer × List BondRequest × CellChanges)
    (hf0 : 0 ≤ request.budgeted_fraction)
    (hreq : request.control_request.channel_index = HEALING_CHANNEL_INDEX →
      0 ≤ request.requested_value)
    (h : l.execute_control_request request bond_requests changes = some result)
    (hinv : LayerInvariant l) : LayerInvariant result.1 := by
  obtain ⟨h0, h1, ha, hm⟩ := hinv
  unfold CellLayer.execute_control_request at h
  cases hbrain : l.body.brain with
  | dead =>
    rw [hbrain] at h
    cases h
    exact ⟨h0, h1, ha, hm⟩
  | living =>
    rw [hbrain] at h
    by_cases hch0 : request.control_request.channel_index = HEALING_CHANNEL_INDEX
    · rw [if_pos hch0] at h
      cases h
      have hrv := hreq hch0
      have hdh0 : 0 ≤ l.body.actual_delta_health request.requested_value
          request.budgeted_fraction := by
        unfold CellLayerBody.actual_delta_health
        exact le_min (mul_nonneg hf0 hrv) (by linarith)
      have hdh1 : l.body.actual_delta_health request.requested_value
          request.budgeted_fraction ≤ 1 - l.body.health :=
        min_le_right _ _
      refine ⟨?_, ?_, ha, hm⟩
      · show (0 : ℚ) ≤ l.body.health + _
        linarith
      · show l.body.health + _ ≤ 1
        linarith
    · rw [if_neg hch0] at h
      by_cases hch1 : request.control_request.channel_index = RESIZE_CHANNEL_INDEX
      · rw [if_pos hch1] at h
        cases h
        refine ⟨h0, h1, ?_, rfl⟩
        show (0 : ℚ) ≤ l.body.area + _
        have := le_max_right
          (l.body.health * request.budgeted_fraction *
            l.body.bound_resize_delta_area request.requested_value)
          (-l.body.area)
        unfold CellLayerBody.actual_delta_area
        rw [max_comm]
        linarith [le_max_left
          (-l.body.area)
          (l.body.health * request.budgeted_fraction *
            l.body.bound_resize_delta_area request.requested_value)]
      · rw [if_neg hch1] at h
        cases hsp : specialty_execute_control_request l.specialty l.body
            request bond_requests with
        | none => rw [hsp] at h; cases h
        | some sb =>
          rw [hsp] at h
          cases h
          exact ⟨h0, h1, ha, hm⟩

/-- One change of a cell's energy pool: a non-negative addition (photo
income or claimed bond energy) or a budget pass over costed requests.
Modelled from the spec: `Cell::add_energy` and the per-tick budget call live
in the missing cell.rs; the budget arithmetic itself is
`budget_control_requests` above. -/
inductive EnergyStep : ℚ → ℚ → Prop where
  | add (e d : ℚ) (h : 0 ≤ d) : EnergyStep e (e + d)
  | budget (e : ℚ) (costed : List CostedControlRequest) :
      EnergyStep e (budget_control_requests e costed).1

/-- The end energy of a budget pass is never negative: the adjusted expense
is capped at the total start energy. -/
lemma budget_end_energy_nonneg (start : ℚ) (costed : List CostedControlRequest) :
    0 ≤ (budget_control_requests start costed).1 := by
  unfold budget_control_requests
  dsimp only
  exact sub_nonneg.mpr (min_le_right _ _)

lemma energy_step_nonneg {e e' : ℚ} (h : EnergyStep e e') (he : 0 ≤ e) :
    0 ≤ e' := by
  cases h with
  | add d hd => linarith
  | budget costed => exact budget_end_energy_nonneg e costed

/-- C4: along any sequence of tick-driven layer operations, health stays in
`[0,1]` (damage floors at 0, healing is capped at `1 − health`), area stays
non-negative (a resize removes at most the whole area) and mass is always
`area · density`; and along any sequence of energy additions and budget
passes a cell's energy stays non-negative. -/
theorem tick_invariants :
    (∀ l l' : CellLayer, LayerInvariant l →
      Relation.ReflTransGen LayerTickStep l l' → LayerInvariant l') ∧
    (∀ e e' : ℚ, 0 ≤ e → Relation.ReflTransGen EnergyStep e e' → 0 ≤ e') := by
  constructor
  · intro l l' hinv hsteps
    induction hsteps with
    | refl => exact hinv
    | tail _ step ih =>
      cases step with
      | damage loss hl => exact damage_preserves_invariant _ loss hl ih
      | after_influences env hent hov hmag =>
        exact after_influences_preserves_invariant _ env hent hov hmag ih
      | execute request br ch result hf0 hf1 hreq h =>
        exact execute_preserves_invariant _ request br ch result hf0 hreq h ih
  · intro e e' he hsteps
    induction hsteps with
    | refl => exact he
    | tail _ step ih => exact energy_step_nonneg step ih

theorem tick_invariants_witness :
    LayerInvariant (living_witness_layer.damage (1/2)) ∧
    (0 : ℚ) ≤ (budget_control_requests 0 budget_witness_requests).1 :=
  ⟨tick_invariants.1 living_witness_layer (living_witness_layer.damage (1/2))
      (by norm_num [LayerInvariant, living_witness_layer])
      (Relation.ReflTransGen.single
        (LayerTickStep.damage living_witness_layer (1/2) (by norm_num))),
    tick_invariants.2 0 (budget_control_requests 0 budget_witness_requests).1
      le_rfl
      (Relation.ReflTransGen.single
        (EnergyStep.budget 0 budget_witness_requests))⟩

/-! ## Bond strain (`evo_domain/src/physics/bond.rs`, `calc_bond_strain`)

The strain geometry needs square roots, so circles live over `ℝ`. -/

/-- `sqr` from `physics/util.rs`. -/
def sqr (x : ℝ) : ℝ := x * x

structure SimpleCircle where
  center : ℝ × ℝ
  radius : ℝ

/-- A unit vector scaled by `m` has squared magnitude `m · m`. -/
lemma sqr_ratio_sum (dx dy m s : ℝ) (hs : s ≠ 0)
    (hss : s * s = dx * dx + dy * dy) :
    (dx / s * m) * (dx / s * m) + (dy / s * m) * (dy / s * m) = m * m := by
  have h1 : (dx / s * m) * (dx / s * m) + (dy / s * m) * (dy / s * m) =
      (dx * dx + dy * dy) * (m * m) / (s * s) := by
    field_simp
    ring
  rw [h1, ← hss]
  exact mul_div_cancel_left₀ _ (mul_ne_zero hs hs)

/-- `calc_bond_strain`: zero displacement for coincident centers, otherwise
the overlap magnitude spread along the unit vector from `circle2` towards
`circle1`. -/
noncomputable def calc_bond_strain (circle1 circle2 : SimpleCircle) : ℝ × ℝ :=
  let x_offset := circle1.center.1 - circle2.center.1
  let y_offset := circle1.center.2 - circle2.center.2
  let just_touching_center_sep := circle1.radius + circle2.radius
  let center_sep := Real.sqrt (sqr x_offset + sqr y_offset)
  if center_sep = 0 then (0, 0)
  else
    let overlap_mag := just_touching_center_sep - center_sep
    ((x_offset / center_sep) * overlap_mag, (y_offset / center_sep) * overlap_mag)

/-- C8: `calc_bond_strain` returns the zero displacement for coincident
centers; otherwise it is the scalar `(r1 + r2 − |c1−c2|) / |c1−c2|` times the
offset vector `c1 − c2` — i.e. the vector of magnitude `r1 + r2 − |c1−c2|`
directed along `(c1−c2)/|c1−c2|` — and on circles of radius 2 at `(0,0)` and
radius 3 at `(6,8)` it returns exactly `(3, 4)`. -/
theorem calc_bond_strain_spec (circle1 circle2 : SimpleCircle) :
    (circle1.center = circle2.center → calc_bond_strain circle1 circle2 = (0, 0)) ∧
    (circle1.center ≠ circle2.center →
      calc_bond_strain circle1 circle2 =
        (((circle1.radius + circle2.radius -
            Real.sqrt (sqr (circle1.center.1 - circle2.center.1) +
              sqr (circle1.center.2 - circle2.center.2))) /
          Real.sqrt (sqr (circle1.center.1 - circle2.center.1) +
            sqr (circle1.center.2 - circle2.center.2))) *
            (circle1.center.1 - circle2.center.1),
         ((circle1.radius + circle2.radius -
            Real.sqrt (sqr (circle1.center.1 - circle2.center.1) +
              sqr (circle1.center.2 - circle2.center.2))) /
          Real.sqrt (sqr (circle1.center.1 - circle2.center.1) +
            sqr (circle1.center.2 - circle2.center.2))) *
            (circle1.center.2 - circle2.center.2)) ∧
      sqr (calc_bond_strain circle1 circle2).1 +
          sqr (calc_bond_strain circle1 circle2).2 =
        sqr (circle1.radius + circle2.radius -
          Real.sqrt (sqr (circle1.center.1 - circle2.center.1) +
            sqr (circle1.center.2 - circle2.center.2)))) ∧
    calc_bond_strain ⟨(0, 0), 2⟩ ⟨(6, 8), 3⟩ = (3, 4) := by
  have hsq : ∀ x : ℝ, 0 ≤ sqr x := fun x => mul_self_nonneg x
  refine ⟨?_, ?_, ?_⟩
  · intro hc
    unfold calc_bond_strain
    rw [if_pos]
    rw [hc]
    simp [sqr]
  · intro hc
    have hne : sqr (circle1.center.1 - circle2.center.1) +
        sqr (circle1.center.2 - circle2.center.2) ≠ 0 := by
      intro h0
      have hx : sqr (circle1.center.1 - circle2.center.1) = 0 :=
        le_antisymm (by linarith [hsq (circle1.center.2 - circle2.center.2)])
          (hsq _)
      have hy : sqr (circle1.center.2 - circle2.center.2) = 0 :=
        le_antisymm (by linarith [hsq (circle1.center.1 - circle2.center.1)])
          (hsq _)
      exact hc (Prod.ext (sub_eq_zero.mp (mul_self_eq_zero.mp hx))
        (sub_eq_zero.mp (mul_self_eq_zero.mp hy)))
    have hpos : 0 < sqr (circle1.center.1 - circle2.center.1) +
        sqr (circle1.center.2 - circle2.center.2) :=
      lt_of_le_of_ne (add_nonneg (hsq _) (hsq _)) (Ne.symm hne)
    have hsqrt_ne : Real.sqrt (sqr (circle1.center.1 - circle2.center.1) +
        sqr (circle1.center.2 - circle2.center.2)) ≠ 0 :=
      ne_of_gt (Real.sqrt_pos.mpr hpos)
    have hd2 : Real.sqrt (sqr (circle1.center.1 - circle2.center.1) +
          sqr (circle1.center.2 - circle2.center.2)) *
        Real.sqrt (sqr (circle1.center.1 - circle2.center.1) +
          sqr (circle1.center.2 - circle2.center.2)) =
        (circle1.center.1 - circle2.center.1) *
            (circle1.center.1 - circle2.center.1) +
          (circle1.center.2 - circle2.center.2) *
            (circle1.center.2 - circle2.center.2) := by
      rw [Real.mul_self_sqrt (le_of_lt hpos)]
      simp [sqr]
    constructor
    · unfold calc_bond_strain
      rw [if_neg hsqrt_ne]
      dsimp only
      rw [Prod.mk.injEq]
      constructor <;> ring
    · unfold calc_bond_strain
      rw [if_neg hsqrt_ne]
      dsimp only
      unfold sqr
      exact sqr_ratio_sum _ _ _ _ hsqrt_ne hd2
  · have h100 : Real.sqrt (sqr ((0 : ℝ) - 6) + sqr ((0 : ℝ) - 8)) = 10 := by
      have : sqr ((0 : ℝ) - 6) + sqr ((0 : ℝ) - 8) = 100 := by norm_num [sqr]
      rw [this, show (100 : ℝ) = 10 ^ 2 by norm_num, Real.sqrt_sq (by norm_num)]
    unfold calc_bond_strain
    simp only
    rw [h100]
    rw [if_neg (by norm_num)]
    norm_num

theorem calc_bond_strain_spec_witness :
    calc_bond_strain ⟨(0, 0), 1⟩ ⟨(0, 0), 1⟩ = (0, 0) ∧
    calc_bond_strain ⟨(0, 0), 2⟩ ⟨(6, 8), 3⟩ = (3, 4) :=
  ⟨(calc_bond_strain_spec ⟨(0, 0), 1⟩ ⟨(0, 0), 1⟩).1 rfl,
   (calc_bond_strain_spec ⟨(0, 0), 2⟩ ⟨(6, 8), 3⟩).2.2⟩

/-! ## Bonds, the cell graph and the world passes
(`evo_domain/src/physics/bond.rs`, `evo_domain/src/world.rs`)

The `SortableGraph` (its source is not under src/) is modelled from the
spec: generational handles are natural numbers; the graph holds the cells,
an association list from bond handle to bond, and the next fresh handles;
`add_edge` records the new bond's handle into the two endpoint cells'
bond-slot arrays; out-of-date handles and energy operations from unrelated
cells fail hard (`none`). -/

structure Bond where
  node1_handle : ℕ
  node2_handle : ℕ
  energy_for_cell1 : ℚ
  energy_for_cell2 : ℚ
  deriving DecidableEq, Repr

/-- `Bond::set_energy_from_cell`: deposit for the opposite endpoint; `none`
is the "unrelated cell" panic. -/
def Bond.set_energy_from_cell (bond : Bond) (cell_handle : ℕ) (energy : ℚ) :
    Option Bond :=
  if cell_handle = bond.node1_handle then
    some { bond with energy_for_cell2 := energy }
  else if cell_handle = bond.node2_handle then
    some { bond with energy_for_cell1 := energy }
  else none

/-- `Bond::claim_energy_for_cell`: return the slot deposited for the given
endpoint and zero it; `none` is the "unrelated cell" panic. -/
def Bond.claim_energy_for_cell (bond : Bond) (cell_handle : ℕ) :
    Option (ℚ × Bond) :=
  if cell_handle = bond.node1_handle then
    some (bond.energy_for_cell1, { bond with energy_for_cell1 := 0 })
  else if cell_handle = bond.node2_handle then
    some (bond.energy_for_cell2, { bond with energy_for_cell2 := 0 })
  else none

/-- A cell as seen by the world passes: its graph handle, energy pool,
liveness, and the `MAX_BONDS` bond-slot array of optional edge handles.
Modelled from the spec: the cell struct itself is in the missing cell.rs. -/
structure CellNode where
  handle : ℕ
  energy : ℚ
  alive : Bool
  edge_handles : List (Option ℕ)
  deriving DecidableEq, Repr

def lookup_bond : List (ℕ × Bond) → ℕ → Option Bond
  | [], _ => none
  | hb :: rest, h => if hb.1 = h then some hb.2 else lookup_bond rest h

/-- Rewrite every bond value in place, keeping handles (the shape of every
in-place `&mut` update through an `EdgeSource`). -/
def map_bond_values (f : ℕ → Bond → Bond) (bonds : List (ℕ × Bond)) :
    List (ℕ × Bond) :=
  bonds.map fun hb => (hb.1, f hb.1 hb.2)

def update_bond (bonds : List (ℕ × Bond)) (handle : ℕ) (b' : Bond) :
    List (ℕ × Bond) :=
  map_bond_values (fun k b => if k = handle then b' else b) bonds

lemma lookup_map_bond_values (f : ℕ → Bond → Bond)
    (bonds : List (ℕ × Bond)) (h : ℕ) :
    lookup_bond (map_bond_values f bonds) h = (lookup_bond bonds h).map (f h) := by
  induction bonds with
  | nil => rfl
  | cons hb rest ih =>
    by_cases hk : hb.1 = h
    · simp [map_bond_values, lookup_bond, hk]
    · simp only [map_bond_values, List.map_cons, lookup_bond, hk, if_false]
      exact ih

lemma map_bond_values_comp (f g : ℕ → Bond → Bond) (bonds : List (ℕ × Bond)) :
    map_bond_values f (map_bond_values g bonds) =
      map_bond_values (fun k b => f k (g k b)) bonds := by
  simp [map_bond_values, List.map_map]

lemma map_bond_values_congr {f g : ℕ → Bond → Bond}
    {bonds : List (ℕ × Bond)} (h : ∀ hb ∈ bonds, f hb.1 hb.2 = g hb.1 hb.2) :
    map_bond_values f bonds = map_bond_values g bonds := by
  unfold map_bond_values
  induction bonds with
  | nil => rfl
  | cons hb rest ih =>
    simp only [List.map_cons, List.cons.injEq]
    exact ⟨by rw [h hb (List.mem_cons_self _ _)],
      ih fun hb' h' => h hb' (List.mem_cons_of_mem _ h')⟩

lemma map_bond_values_id (bonds : List (ℕ × Bond)) :
    map_bond_values (fun _ b => b) bonds = bonds := by
  simp [map_bond_values]

/-- The energy waiting in `b` for endpoint `u` (the slot `claim` returns). -/
def deposit_for (b : Bond) (u : ℕ) : ℚ :=
  if u = b.node1_handle then b.energy_for_cell1 else b.energy_for_cell2

/-- `b` with the slot for endpoint `u` zeroed (the effect of a claim). -/
def zero_side_for (u : ℕ) (b : Bond) : Bond :=
  if u = b.node1_handle then { b with energy_for_cell1 := 0 }
  else if u = b.node2_handle then { b with energy_for_cell2 := 0 }
  else b

lemma claim_of_endpoint (b : Bond) (u : ℕ)
    (h : u = b.node1_handle ∨ u = b.node2_handle) :
    b.claim_energy_for_cell u = some (deposit_for b u, zero_side_for u b) := by
  unfold Bond.claim_energy_for_cell deposit_for zero_side_for
  by_cases h1 : u = b.node1_handle
  · simp [h1]
  · rcases h with h | h2
    · exact absurd h h1
    · simp only [h1, if_false, h2]
      split_ifs <;> rfl

/-- The total bond income of cell `u` over a bond-slot array. -/
def slot_income (u : ℕ) (bonds : List (ℕ × Bond)) : List (Option ℕ) → ℚ
  | [] => 0
  | none :: rest => slot_income u bonds rest
  | some h :: rest =>
      (match lookup_bond bonds h with
       | none => 0
       | some b => deposit_for b u) + slot_income u bonds rest

def bond_income (bonds : List (ℕ × Bond)) (cell : CellNode) : ℚ :=
  slot_income cell.handle bonds cell.edge_handles

/-- One slot of `World::claim_bond_energy`: skip an empty slot, otherwise
look the bond up (an out-of-date handle is a hard failure), claim the
cell's slot and write the zeroed bond back. -/
def claim_step (u : ℕ) (acc : ℚ × List (ℕ × Bond)) (slot : Option ℕ) :
    Option (ℚ × List (ℕ × Bond)) :=
  match slot with
  | none => some acc
  | some edge_handle =>
    match lookup_bond acc.2 edge_handle with
    | none => none
    | some bond =>
      (bond.claim_energy_for_cell u).map fun eb =>
        (acc.1 + eb.1, update_bond acc.2 edge_handle eb.2)

/-- `World::claim_bond_energy`: fold the cell's bond slots, accumulating
the claimed energy (added to the cell by the caller). -/
def claim_bond_energy (cell : CellNode) (bonds : List (ℕ × Bond)) :
    Option (ℚ × List (ℕ × Bond)) :=
  cell.edge_handles.foldlM (claim_step cell.handle) (0, bonds)

lemma lookup_of_mem_nodup {bs : List (ℕ × Bond)} {h : ℕ} {b : Bond}
    (hmem : (h, b) ∈ bs) (hkeys : (bs.map Prod.fst).Nodup) :
    lookup_bond bs h = some b := by
  induction bs with
  | nil => cases hmem
  | cons hb rest ih =>
    rcases List.mem_cons.mp hmem with rfl | hmem'
    · simp [lookup_bond]
    · have hne : hb.1 ≠ h := by
        intro hk
        have : hb.1 ∈ rest.map Prod.fst :=
          hk ▸ List.mem_map_of_mem Prod.fst hmem'
        exact (List.nodup_cons.mp hkeys).1 this
      simp only [lookup_bond, hne, if_false]
      exact ih hmem' (List.nodup_cons.mp hkeys).2

/-- Zero the `u` side of every bond whose handle appears in the slot list
(the aggregate effect of one cell's claim pass). -/
def zero_slots (u : ℕ) (sl : List (Option ℕ)) : ℕ → Bond → Bond :=
  fun k b => if (some k) ∈ sl then zero_side_for u b else b

/-- The slot fold of `claim_bond_energy`, relative to an already-claimed
slot prefix: it returns the summed income and zeroes the cell's side of
every bond named by a slot. -/
lemma claim_fold_spec (u : ℕ) (bs : List (ℕ × Bond))
    (hkeys : (bs.map Prod.fst).Nodup) :
    ∀ (slots pre : List (Option ℕ)) (E : ℚ),
      ((pre ++ slots).filterMap id).Nodup →
      (∀ h, (some h) ∈ slots → ∃ b, lookup_bond bs h = some b ∧
        (u = b.node1_handle ∨ u = b.node2_handle)) →
      slots.foldlM (claim_step u) (E, map_bond_values (zero_slots u pre) bs)
      = some (E + slot_income u bs slots,
          map_bond_values (zero_slots u (pre ++ slots)) bs) := by
  intro slots
  induction slots with
  | nil =>
    intro pre E _ _
    simp [slot_income]
  | cons slot rest ih =>
    intro pre E hnodup hvalid
    rw [List.foldlM_cons]
    cases slot with
    | none =>
      have hstep : claim_step u (E, map_bond_values (zero_slots u pre) bs) none
          = some (E, map_bond_values (zero_slots u pre) bs) := rfl
      rw [hstep]
      simp only [Option.bind_eq_bind, Option.some_bind]
      have hcongr : map_bond_values (zero_slots u pre) bs
          = map_bond_values (zero_slots u (pre ++ [none])) bs := by
        apply map_bond_values_congr
        intro hb _
        simp [zero_slots, List.mem_append]
      have hlist : pre ++ (none :: rest) = (pre ++ [none]) ++ rest := by
        rw [List.append_assoc]
        rfl
      have hinc : slot_income u bs (none :: rest) = slot_income u bs rest := rfl
      rw [hcongr, hinc, hlist]
      refine ih (pre ++ [none]) E ?_ ?_
      · rw [← hlist]
        exact hnodup
      · exact fun h' hm => hvalid h' (List.mem_cons_of_mem _ hm)
    | some h =>
      obtain ⟨b, hb, hinc⟩ := hvalid h (List.mem_cons_self _ _)
      have hp : (some h : Option ℕ) ∉ pre := by
        intro hpre
        rw [List.filterMap_append] at hnodup
        exact List.disjoint_of_nodup_append hnodup
          (List.mem_filterMap.mpr ⟨some h, hpre, rfl⟩)
          (List.mem_filterMap.mpr ⟨some h, List.mem_cons_self _ _, rfl⟩)
      have hlookup : lookup_bond (map_bond_values (zero_slots u pre) bs) h
          = some b := by
        rw [lookup_map_bond_values, hb]
        simp [zero_slots, hp]
      have hstep : claim_step u (E, map_bond_values (zero_slots u pre) bs)
          (some h) = some (E + deposit_for b u,
            update_bond (map_bond_values (zero_slots u pre) bs) h
              (zero_side_for u b)) := by
        simp only [claim_step, hlookup, claim_of_endpoint b u hinc,
          Option.map_some']
      have hupd : update_bond (map_bond_values (zero_slots u pre) bs) h
          (zero_side_for u b) = map_bond_values (zero_slots u (pre ++ [some h])) bs := by
        unfold update_bond
        rw [map_bond_values_comp]
        apply map_bond_values_congr
        intro hb' hmem'
        by_cases hk : hb'.1 = h
        · have hlk : lookup_bond bs hb'.1 = some hb'.2 :=
            lookup_of_mem_nodup hmem' hkeys
          rw [hk] at hlk
          rw [hb] at hlk
          have hbb : b = hb'.2 := by injection hlk
          simp [zero_slots, hk, List.mem_append, hbb]
        · have hne : ¬((some hb'.1 : Option ℕ) ∈ [some h]) := by
            simp [hk]
          simp only [zero_slots, if_neg hk, List.mem_append, hne, or_false]
      have hinc2 : slot_income u bs (some h :: rest)
          = deposit_for b u + slot_income u bs rest := by
        show (match lookup_bond bs h with
          | none => 0 | some b => deposit_for b u) + _ = _
        rw [hb]
      have hlist : pre ++ (some h :: rest) = (pre ++ [some h]) ++ rest := by
        rw [List.append_assoc]
        rfl
      rw [hstep]
      simp only [Option.bind_eq_bind, Option.some_bind]
      rw [hupd, hinc2, ← add_assoc, hlist]
      refine ih (pre ++ [some h]) (E + deposit_for b u) ?_ ?_
      · rw [← hlist]
        exact hnodup
      · exact fun h' hm => hvalid h' (List.mem_cons_of_mem _ hm)

lemma map_bond_values_keys (f : ℕ → Bond → Bond) (bs : List (ℕ × Bond)) :
    (map_bond_values f bs).map Prod.fst = bs.map Prod.fst := by
  simp [map_bond_values, List.map_map]

/-- `claim_bond_energy` on a cell whose slots name existing incident bonds:
it claims exactly the cell's bond income and zeroes the cell's side of each
slot's bond. -/
lemma claim_bond_energy_spec (c : CellNode) (bs : List (ℕ × Bond))
    (hkeys : (bs.map Prod.fst).Nodup)
    (hnodup : (c.edge_handles.filterMap id).Nodup)
    (hvalid : ∀ h, (some h) ∈ c.edge_handles → ∃ b, lookup_bond bs h = some b ∧
      (c.handle = b.node1_handle ∨ c.handle = b.node2_handle)) :
    claim_bond_energy c bs = some (bond_income bs c,
      map_bond_values (zero_slots c.handle c.edge_handles) bs) := by
  have hbs0 : bs = map_bond_values (zero_slots c.handle []) bs := by
    rw [map_bond_values_congr (g := fun _ b => b), map_bond_values_id]
    intro hb _
    simp [zero_slots]
  have h := claim_fold_spec c.handle bs hkeys c.edge_handles [] 0
    (by simpa using hnodup) hvalid
  rw [List.nil_append, zero_add] at h
  unfold claim_bond_energy bond_income
  rw [← hbs0] at h
  exact h

/-- Zero the two slots of a bond for every endpoint in the claimed set (the
aggregate effect of the whole `process_cell_bond_energy` pass). -/
def zero_claimed (claimed : List ℕ) (b : Bond) : Bond :=
  { b with
    energy_for_cell1 :=
      if b.node1_handle ∈ claimed then 0 else b.energy_for_cell1,
    energy_for_cell2 :=
      if b.node2_handle ∈ claimed then 0 else b.energy_for_cell2 }

/-- Zeroing other endpoints' slots does not change a cell's own income. -/
lemma slot_income_zero_claimed (u : ℕ) (orig : List (ℕ × Bond)) (done : List ℕ)
    (hu : u ∉ done) :
    ∀ slots : List (Option ℕ),
      (∀ h, (some h) ∈ slots → ∃ b, lookup_bond orig h = some b ∧
        (u = b.node1_handle ∨ u = b.node2_handle)) →
      slot_income u (map_bond_values (fun _ => zero_claimed done) orig) slots =
        slot_income u orig slots := by
  intro slots
  induction slots with
  | nil => intro _; rfl
  | cons slot rest ih =>
    intro hvalid
    cases slot with
    | none =>
      exact ih fun h hm => hvalid h (List.mem_cons_of_mem _ hm)
    | some h =>
      obtain ⟨b, hb, hinc⟩ := hvalid h (List.mem_cons_self _ _)
      have hdep : deposit_for (zero_claimed done b) u = deposit_for b u := by
        unfold deposit_for zero_claimed
        by_cases h1 : u = b.node1_handle
        · simp only [h1, if_true]
          rw [if_neg (h1 ▸ hu)]
        · simp only [h1, if_false]
          rcases hinc with h1' | h2
          · exact absurd h1' h1
          · rw [if_neg (h2 ▸ hu)]
      have hrest := ih fun h' hm => hvalid h' (List.mem_cons_of_mem _ hm)
      show (match lookup_bond (map_bond_values
            (fun _ => zero_claimed done) orig) h with
          | none => 0 | some b => deposit_for b u) +
          slot_income u (map_bond_values (fun _ => zero_claimed done) orig) rest
        = (match lookup_bond orig h with
          | none => 0 | some b => deposit_for b u) + slot_income u orig rest
      rw [lookup_map_bond_values, hb, Option.map_some', hrest]
      show deposit_for (zero_claimed done b) u + _ = _
      rw [hdep]

/-- `World::process_cell_bond_energy`: every cell, in storage order, claims
all its bond slots and adds the claimed energy to its pool. -/
def process_cells : List CellNode → List (ℕ × Bond) →
    Option (List CellNode × List (ℕ × Bond))
  | [], bonds => some ([], bonds)
  | c :: rest, bonds =>
    (claim_bond_energy c bonds).bind fun gb =>
      (process_cells rest gb.2).map fun rb =>
        ({ c with energy := c.energy + gb.1 } :: rb.1, rb.2)

/-- One cell's claim pass on top of an already-claimed endpoint set equals
extending the claimed set by that cell's handle. -/
lemma zero_slots_after_claimed (orig : List (ℕ × Bond))
    (hkeys : (orig.map Prod.fst).Nodup)
    (hproper : ∀ hb ∈ orig, hb.2.node1_handle ≠ hb.2.node2_handle)
    (c : CellNode) (done : List ℕ)
    (hvalid : ∀ h, (some h) ∈ c.edge_handles → ∃ b, lookup_bond orig h = some b ∧
      (c.handle = b.node1_handle ∨ c.handle = b.node2_handle))
    (hreg : ∀ hb ∈ orig,
      (c.handle = hb.2.node1_handle → (some hb.1) ∈ c.edge_handles) ∧
      (c.handle = hb.2.node2_handle → (some hb.1) ∈ c.edge_handles)) :
    map_bond_values (zero_slots c.handle c.edge_handles)
        (map_bond_values (fun _ => zero_claimed done) orig)
      = map_bond_values (fun _ => zero_claimed (done ++ [c.handle])) orig := by
  rw [map_bond_values_comp]
  apply map_bond_values_congr
  intro hb hmem
  have hlk : lookup_bond orig hb.1 = some hb.2 := lookup_of_mem_nodup hmem hkeys
  by_cases hin : (some hb.1) ∈ c.edge_handles
  · obtain ⟨b', hb', hinc⟩ := hvalid hb.1 hin
    rw [hlk] at hb'
    have hbb : b' = hb.2 := by
      injection hb' with veq
      exact veq.symm
    rw [hbb] at hinc
    simp only [zero_slots, if_pos hin]
    unfold zero_side_for zero_claimed
    by_cases h1 : c.handle = hb.2.node1_handle
    · have h2 : hb.2.node2_handle ≠ c.handle := by
        intro hx
        exact hproper hb hmem (h1.symm.trans hx.symm)
      simp [h1, List.mem_append, Ne.symm h2, Ne.symm (hproper hb hmem)]
    · rcases hinc with h1' | h2
      · exact absurd h1' h1
      · have h1ne : hb.2.node1_handle ≠ c.handle := fun hx => h1 hx.symm
        simp [h1, h2, List.mem_append, h1ne, hproper hb hmem,
          Ne.symm (hproper hb hmem)]
  · have h1 : c.handle ≠ hb.2.node1_handle := by
      intro hx
      exact hin ((hreg hb hmem).1 hx)
    have h2 : c.handle ≠ hb.2.node2_handle := by
      intro hx
      exact hin ((hreg hb hmem).2 hx)
    simp only [zero_slots, if_neg hin]
    unfold zero_claimed
    simp [List.mem_append, Ne.symm h1, Ne.symm h2]

/-- The whole claim pass, relative to an already-claimed handle set. -/
lemma process_cells_spec (orig : List (ℕ × Bond))
    (hkeys : (orig.map Prod.fst).Nodup)
    (hproper : ∀ hb ∈ orig, hb.2.node1_handle ≠ hb.2.node2_handle) :
    ∀ (todo : List CellNode) (done : List ℕ),
      (todo.map CellNode.handle).Nodup →
      (∀ c ∈ todo, c.handle ∉ done) →
      (∀ c ∈ todo, (c.edge_handles.filterMap id).Nodup) →
      (∀ c ∈ todo, ∀ h, (some h) ∈ c.edge_handles →
        ∃ b, lookup_bond orig h = some b ∧
          (c.handle = b.node1_handle ∨ c.handle = b.node2_handle)) →
      (∀ hb ∈ orig, ∀ c ∈ todo,
        (c.handle = hb.2.node1_handle → (some hb.1) ∈ c.edge_handles) ∧
        (c.handle = hb.2.node2_handle → (some hb.1) ∈ c.edge_handles)) →
      process_cells todo (map_bond_values (fun _ => zero_claimed done) orig)
        = some (todo.map
            (fun c => { c with energy := c.energy + bond_income orig c }),
          map_bond_values
            (fun _ => zero_claimed (done ++ todo.map CellNode.handle)) orig) := by
  intro todo
  induction todo with
  | nil =>
    intro done _ _ _ _ _
    simp [process_cells]
  | cons c rest ih =>
    intro done hnodup hdone hslots hvalid hreg
    have hkeys' : ((map_bond_values (fun _ => zero_claimed done) orig).map
        Prod.fst).Nodup := by
      rw [map_bond_values_keys]
      exact hkeys
    have hvalid' : ∀ h, (some h) ∈ c.edge_handles →
        ∃ b, lookup_bond (map_bond_values (fun _ => zero_claimed done) orig) h
            = some b ∧
          (c.handle = b.node1_handle ∨ c.handle = b.node2_handle) := by
      intro h hm
      obtain ⟨b, hb, hinc⟩ := hvalid c (List.mem_cons_self _ _) h hm
      refine ⟨zero_claimed done b, ?_, ?_⟩
      · rw [lookup_map_bond_values, hb, Option.map_some']
      · exact hinc
    have hclaim := claim_bond_energy_spec c
      (map_bond_values (fun _ => zero_claimed done) orig) hkeys'
      (hslots c (List.mem_cons_self _ _)) hvalid'
    have hincome : bond_income (map_bond_values (fun _ => zero_claimed done) orig)
        c = bond_income orig c :=
      slot_income_zero_claimed c.handle orig done
        (hdone c (List.mem_cons_self _ _)) c.edge_handles
        (hvalid c (List.mem_cons_self _ _))
    have hzs := zero_slots_after_claimed orig hkeys hproper c done
      (hvalid c (List.mem_cons_self _ _))
      (fun hb hm => hreg hb hm c (List.mem_cons_self _ _))
    show (claim_bond_energy c (map_bond_values (fun _ => zero_claimed done) orig)).bind
        _ = _
    rw [hclaim]
    simp only [Option.bind_eq_bind, Option.some_bind]
    rw [hincome, hzs]
    have hrest := ih (done ++ [c.handle]) (List.nodup_cons.mp hnodup).2
      (by
        intro c' hc'
        rw [List.mem_append]
        rintro (hd | hu)
        · exact hdone c' (List.mem_cons_of_mem _ hc') hd
        · rw [List.mem_singleton] at hu
          exact (List.nodup_cons.mp hnodup).1
            (hu ▸ List.mem_map_of_mem CellNode.handle hc'))
      (fun c' hc' => hslots c' (List.mem_cons_of_mem _ hc'))
      (fun c' hc' => hvalid c' (List.mem_cons_of_mem _ hc'))
      (fun hb hm c' hc' => hreg hb hm c' (List.mem_cons_of_mem _ hc'))
    rw [hrest]
    simp only [Option.map_some']
    have hlist : (done ++ [c.handle]) ++ rest.map CellNode.handle
        = done ++ (c :: rest).map CellNode.handle := by
      rw [List.append_assoc]
      rfl
    rw [hlist]
    rfl

structure WorldModel where
  cells : List CellNode
  bonds : List (ℕ × Bond)
  next_cell_handle : ℕ
  next_bond_handle : ℕ
  deriving DecidableEq, Repr

/-- The graph invariant maintained by the `SortableGraph` (spec §4.1):
distinct handles, proper bonds between two distinct existing nodes, slot
arrays without duplicates whose entries name existing incident bonds, every
bond registered in both endpoints' slot arrays, and all live handles below
the fresh-handle counters. -/
structure WorldInv (w : WorldModel) : Prop where
  cell_handles_nodup : (w.cells.map CellNode.handle).Nodup
  bond_keys_nodup : (w.bonds.map Prod.fst).Nodup
  bonds_proper : ∀ hb ∈ w.bonds, hb.2.node1_handle ≠ hb.2.node2_handle
  slots_nodup : ∀ c ∈ w.cells, (c.edge_handles.filterMap id).Nodup
  slots_valid : ∀ c ∈ w.cells, ∀ h, (some h) ∈ c.edge_handles →
    ∃ b, lookup_bond w.bonds h = some b ∧
      (c.handle = b.node1_handle ∨ c.handle = b.node2_handle)
  bonds_registered : ∀ hb ∈ w.bonds, ∀ c ∈ w.cells,
    (c.handle = hb.2.node1_handle → (some hb.1) ∈ c.edge_handles) ∧
    (c.handle = hb.2.node2_handle → (some hb.1) ∈ c.edge_handles)
  endpoints_are_cells : ∀ hb ∈ w.bonds,
    hb.2.node1_handle ∈ w.cells.map CellNode.handle ∧
    hb.2.node2_handle ∈ w.cells.map CellNode.handle
  cell_handles_lt : ∀ c ∈ w.cells, c.handle < w.next_cell_handle
  bond_keys_lt : ∀ hb ∈ w.bonds, hb.1 < w.next_bond_handle

def process_cell_bond_energy (w : WorldModel) : Option WorldModel :=
  (process_cells w.cells w.bonds).map fun cb =>
    { w with cells := cb.1, bonds := cb.2 }

lemma zero_claimed_nil (bs : List (ℕ × Bond)) :
    map_bond_values (fun _ => zero_claimed []) bs = bs := by
  rw [map_bond_values_congr (g := fun _ b => b), map_bond_values_id]
  intro hb _
  simp [zero_claimed]

/-- C5: claiming with an endpoint handle returns exactly that endpoint's
deposited slot and zeroes it, and claiming or depositing with any other
handle fails fast (`none` models the panic); consequently, after
`process_cell_bond_energy` every bond's two slots are zero and every cell's
energy has grown by exactly its bond income — the sum, over its slots, of
the slot the opposite endpoint had deposited for it. -/
theorem bond_energy_claim_spec :
    (∀ (b : Bond) (u : ℕ),
      (u = b.node1_handle →
        b.claim_energy_for_cell u =
          some (b.energy_for_cell1, { b with energy_for_cell1 := 0 }) ∧
        ∀ e, b.set_energy_from_cell u e =
          some { b with energy_for_cell2 := e }) ∧
      (u ≠ b.node1_handle → u = b.node2_handle →
        b.claim_energy_for_cell u =
          some (b.energy_for_cell2, { b with energy_for_cell2 := 0 }) ∧
        ∀ e, b.set_energy_from_cell u e =
          some { b with energy_for_cell1 := e }) ∧
      (u ≠ b.node1_handle → u ≠ b.node2_handle →
        b.claim_energy_for_cell u = none ∧
        ∀ e, b.set_energy_from_cell u e = none)) ∧
    (∀ w : WorldModel, WorldInv w →
      ∃ w', process_cell_bond_energy w = some w' ∧
        (∀ hb ∈ w'.bonds,
          hb.2.energy_for_cell1 = 0 ∧ hb.2.energy_for_cell2 = 0) ∧
        w'.cells = w.cells.map fun c =>
          { c with energy := c.energy + bond_income w.bonds c }) := by
  constructor
  · intro b u
    refine ⟨?_, ?_, ?_⟩
    · intro h1
      constructor
      · simp [Bond.claim_energy_for_cell, h1]
      · intro e
        simp [Bond.set_energy_from_cell, h1]
    · intro h1 h2
      have h3 : b.node2_handle ≠ b.node1_handle := h2 ▸ h1
      constructor
      · simp [Bond.claim_energy_for_cell, h1, h2, h3]
      · intro e
        simp [Bond.set_energy_from_cell, h1, h2, h3]
    · intro h1 h2
      refine ⟨by simp [Bond.claim_energy_for_cell, h1, h2], fun e => ?_⟩
      simp [Bond.set_energy_from_cell, h1, h2]
  · intro w hinv
    have hspec := process_cells_spec w.bonds hinv.bond_keys_nodup
      hinv.bonds_proper w.cells [] hinv.cell_handles_nodup
      (fun c _ => List.not_mem_nil _) hinv.slots_nodup hinv.slots_valid
      hinv.bonds_registered
    rw [zero_claimed_nil] at hspec
    refine ⟨{ w with
        cells := w.cells.map
          (fun c => { c with energy := c.energy + bond_income w.bonds c }),
        bonds := map_bond_values
          (fun _ => zero_claimed ([] ++ w.cells.map CellNode.handle)) w.bonds },
      ?_, ?_, rfl⟩
    · unfold process_cell_bond_energy
      rw [hspec, Option.map_some']
    · intro hb hmem
      simp only [map_bond_values, List.mem_map] at hmem
      obtain ⟨hb0, hmem0, rfl⟩ := hmem
      have hend := hinv.endpoints_are_cells hb0 hmem0
      constructor
      · show (if hb0.2.node1_handle ∈ [] ++ w.cells.map CellNode.handle
          then (0 : ℚ) else _) = 0
        rw [if_pos (by simpa using hend.1)]
      · show (if hb0.2.node2_handle ∈ [] ++ w.cells.map CellNode.handle
          then (0 : ℚ) else _) = 0
        rw [if_pos (by simpa using hend.2)]

/-- Two bonded cells with deposits 3 and 2 waiting (the E5 scenario after
its first tick). -/
def claim_witness_world : WorldModel :=
  ⟨[⟨0, 10, true, [some 5, none]⟩, ⟨1, 10, true, [some 5]⟩],
   [(5, ⟨0, 1, 3, 2⟩)], 2, 6⟩

lemma claim_witness_world_inv : WorldInv claim_witness_world := by
  refine ⟨?_, ?_, ?_, ?_, ?_, ?_, ?_, ?_, ?_⟩
  · decide
  · decide
  · intro hb hm
    simp only [claim_witness_world, List.mem_singleton] at hm
    subst hm
    norm_num
  · intro c hc
    simp only [claim_witness_world, List.mem_cons, List.mem_singleton,
      List.not_mem_nil, or_false] at hc
    rcases hc with rfl | rfl <;> decide
  · intro c hc h hm
    simp only [claim_witness_world, List.mem_cons, List.mem_singleton,
      List.not_mem_nil, or_false] at hc
    rcases hc with rfl | rfl
    · simp only [List.mem_cons, List.mem_singleton, List.not_mem_nil,
        or_false, Option.some.injEq, reduceCtorEq] at hm
      subst hm
      exact ⟨⟨0, 1, 3, 2⟩, rfl, Or.inl rfl⟩
    · simp only [List.mem_singleton, Option.some.injEq] at hm
      subst hm
      exact ⟨⟨0, 1, 3, 2⟩, rfl, Or.inr rfl⟩
  · intro hb hm c hc
    simp only [claim_witness_world, List.mem_singleton] at hm
    subst hm
    simp only [claim_witness_world, List.mem_cons, List.mem_singleton,
      List.not_mem_nil, or_false] at hc
    rcases hc with rfl | rfl
    · exact ⟨fun _ => by simp, fun hx => absurd hx (by norm_num)⟩
    · exact ⟨fun hx => absurd hx (by norm_num), fun _ => by simp⟩
  · intro hb hm
    simp only [claim_witness_world, List.mem_singleton] at hm
    subst hm
    refine ⟨?_, ?_⟩ <;> simp [claim_witness_world]
  · intro c hc
    simp only [claim_witness_world, List.mem_cons, List.mem_singleton,
      List.not_mem_nil, or_false] at hc
    rcases hc with rfl | rfl <;> norm_num [claim_witness_world]
  · intro hb hm
    simp only [claim_witness_world, List.mem_singleton] at hm
    subst hm
    norm_num [claim_witness_world]

theorem bond_energy_claim_spec_witness :
    (Bond.claim_energy_for_cell ⟨0, 1, 3, 2⟩ 7 = none ∧
      ∀ e, Bond.set_energy_from_cell ⟨0, 1, 3, 2⟩ 7 e = none) ∧
    ∃ w', process_cell_bond_energy claim_witness_world = some w' ∧
      (∀ hb ∈ w'.bonds,
        hb.2.energy_for_cell1 = 0 ∧ hb.2.energy_for_cell2 = 0) ∧
      w'.cells = claim_witness_world.cells.map fun c =>
        { c with energy := c.energy + bond_income claim_witness_world.bonds c } :=
  ⟨(bond_energy_claim_spec.1 ⟨0, 1, 3, 2⟩ 7).2.2 (by norm_num) (by norm_num),
   bond_energy_claim_spec.2 claim_witness_world claim_witness_world_inv⟩

/-! ### Bond requests and structural changes (`World::run_cell_controls`) -/

/-- `NewChildData`: the parent handle, the bond slot on the parent, the
budding angle the child was placed at, and the energy to deposit for the
child.  The child cell's geometry (`create_and_place_child_cell` in the
missing cell.rs) is modelled from the spec by this record. -/
structure NewChildData where
  parent : ℕ
  bond_index : ℕ
  budding_angle : ℚ
  donated_energy : ℚ
  deriving DecidableEq, Repr

/-- The side buffers `run_cell_controls` accumulates while iterating:
the (deposit-mutated) bonds, the new children, and the broken-bond handle
set. -/
structure BondReqState where
  bonds : List (ℕ × Bond)
  new_children : List NewChildData
  broken_bond_handles : List ℕ
  deriving DecidableEq, Repr

/-- One slot of `World::execute_bond_requests`: keep-and-donate deposits
into an existing bond (a dangling handle is a hard failure), keep-and-donate
without a bond records a child, and not retaining an existing bond marks it
broken. -/
def execute_one_bond_request (cell : CellNode) (st : BondReqState)
    (ir : ℕ × BondRequest) : Option BondReqState :=
  let index := ir.1
  let bond_request := ir.2
  if bond_request.retain_bond then
    if bond_request.donation_energy ≠ 0 then
      match cell.edge_handles.getD index none with
      | some edge_handle =>
        match lookup_bond st.bonds edge_handle with
        | none => none
        | some bond =>
          (bond.set_energy_from_cell cell.handle
            bond_request.donation_energy).map fun b' =>
              { st with bonds := update_bond st.bonds edge_handle b' }
      | none =>
        some { st with new_children := st.new_children ++
          [⟨cell.handle, index, bond_request.budding_angle,
            bond_request.donation_energy⟩] }
    else some st
  else
    match cell.edge_handles.getD index none with
    | some edge_handle =>
      some { st with broken_bond_handles :=
        st.broken_bond_handles.insert edge_handle }
    | none => some st

def execute_bond_requests (cell : CellNode) (st : BondReqState)
    (bond_requests : List BondRequest) : Option BondReqState :=
  bond_requests.enum.foldlM (execute_one_bond_request cell) st

/-- The iteration of `run_cell_controls`: each cell in storage order
executes its bond requests and is recorded as dead if no layer is alive.
Modelled from the spec: each cell's `run_control` output is the given
per-handle request table; its intra-cell effects are covered by the layer
theorems. -/
def run_controls_pass (reqs : ℕ → List BondRequest) :
    List CellNode → BondReqState → List ℕ → Option (BondReqState × List ℕ)
  | [], st, dead => some (st, dead)
  | c :: rest, st, dead =>
    (execute_bond_requests c st (reqs c.handle)).bind fun st' =>
      run_controls_pass reqs rest st'
        (if c.alive then dead else dead ++ [c.handle])

/-- A newborn cell's slot array: `MAX_BONDS` empty slots with the
parent-bond handle recorded at slot 0 (`add_bond(bond, bond_index, 0)`). -/
def spawn_child_slots (bond_handle : ℕ) : List (Option ℕ) :=
  (List.replicate MAX_BONDS (none : Option ℕ)).set 0 (some bond_handle)

/-- `World::add_children`, one child: add the child cell, then a bond from
parent to child carrying the donated energy for the child
(`set_energy_from_cell(parent, …)` fills `energy_for_cell2`), recorded at
(bond_index on the parent, 0 on the child). -/
def add_child (w : WorldModel) (kid : NewChildData) : WorldModel :=
  let child_handle := w.next_cell_handle
  let bond_handle := w.next_bond_handle
  let child : CellNode := ⟨child_handle, 0, true, spawn_child_slots bond_handle⟩
  let bond : Bond := ⟨kid.parent, child_handle, 0, kid.donated_energy⟩
  { cells := (w.cells.map fun c =>
      if c.handle = kid.parent then
        { c with edge_handles :=
            c.edge_handles.set kid.bond_index (some bond_handle) }
      else c) ++ [child],
    bonds := w.bonds ++ [(bond_handle, bond)],
    next_cell_handle := w.next_cell_handle + 1,
    next_bond_handle := w.next_bond_handle + 1 }

def add_children (w : WorldModel) (kids : List NewChildData) : WorldModel :=
  kids.foldl add_child w

/-- Clear the slot-array references to removed bonds. -/
def clear_slots (removed : List ℕ) (c : CellNode) : CellNode :=
  { c with edge_handles := c.edge_handles.map fun s =>
      match s with
      | some h => if h ∈ removed then none else some h
      | none => none }

/-- `World::remove_bonds` (via `SortableGraph::remove_edges`). -/
def remove_bonds (w : WorldModel) (broken : List ℕ) : WorldModel :=
  { w with
    bonds := w.bonds.filter fun hb => decide (hb.1 ∉ broken),
    cells := w.cells.map (clear_slots broken) }

/-- `SortableGraph::remove_nodes`: dead cells go away and their incident
bonds are removed by cascade. -/
def remove_nodes (w : WorldModel) (dead : List ℕ) : WorldModel :=
  let cascade := (w.bonds.filter fun hb =>
    decide (hb.2.node1_handle ∈ dead ∨ hb.2.node2_handle ∈ dead)).map Prod.fst
  { w with
    cells := ((w.cells.filter fun c => decide (c.handle ∉ dead)).map
      (clear_slots cascade)),
    bonds := w.bonds.filter fun hb =>
      decide (hb.2.node1_handle ∉ dead ∧ hb.2.node2_handle ∉ dead) }

/-- `World::update_cell_graph`: children first, then broken bonds, dead
cells last. -/
def update_cell_graph (w : WorldModel) (kids : List NewChildData)
    (broken : List ℕ) (dead : List ℕ) : WorldModel :=
  remove_nodes (remove_bonds (add_children w kids) broken) dead

def run_cell_controls (w : WorldModel) (reqs : ℕ → List BondRequest) :
    Option WorldModel :=
  (run_controls_pass reqs w.cells ⟨w.bonds, [], []⟩ []).map fun sd =>
    update_cell_graph { w with bonds := sd.1.bonds } sd.1.new_children
      sd.1.broken_bond_handles sd.2

lemma lookup_append (bs bs' : List (ℕ × Bond)) (h : ℕ) :
    lookup_bond (bs ++ bs') h =
      match lookup_bond bs h with
      | some b => some b
      | none => lookup_bond bs' h := by
  induction bs with
  | nil => rfl
  | cons hb rest ih =>
    by_cases hk : hb.1 = h
    · simp [lookup_bond, hk]
    · simp only [List.cons_append, lookup_bond, hk, if_false]
      exact ih

lemma lookup_filter_of_pass {bs : List (ℕ × Bond)} {h : ℕ} {b : Bond}
    {q : ℕ × Bond → Bool} (hl : lookup_bond bs h = some b)
    (hq : q (h, b) = true) :
    lookup_bond (bs.filter q) h = some b := by
  induction bs with
  | nil => cases hl
  | cons hb rest ih =>
    by_cases hk : hb.1 = h
    · rw [lookup_bond, if_pos hk] at hl
      have hb2 : hb.2 = b := by injection hl
      have hbeq : hb = (h, b) := by
        rw [← hk, ← hb2]
      rw [hbeq]
      simp [List.filter, hq, lookup_bond]
    · rw [lookup_bond, if_neg hk] at hl
      by_cases hqh : q hb = true
      · simp only [List.filter, hqh, lookup_bond, hk, if_false]
        exact ih hl
      · simp only [List.filter]
        rw [Bool.not_eq_true] at hqh
        rw [hqh]
        exact ih hl

lemma lookup_filter_keys (bs : List (ℕ × Bond)) (p : ℕ → Bool) (h : ℕ) :
    lookup_bond (bs.filter fun hb => p hb.1) h =
      if p h then lookup_bond bs h else none := by
  induction bs with
  | nil => simp [lookup_bond]
  | cons hb rest ih =>
    by_cases hk : hb.1 = h
    · subst hk
      by_cases hp : p hb.1 = true
      · simp [List.filter, hp, lookup_bond]
      · rw [Bool.not_eq_true] at hp
        simp only [List.filter, hp, lookup_bond]
        rw [ih, hp]
        simp [lookup_bond]
    · by_cases hp : p hb.1 = true
      · simp only [List.filter, hp, lookup_bond, hk, if_false]
        exact ih
      · rw [Bool.not_eq_true] at hp
        simp only [List.filter, hp]
        rw [show lookup_bond (hb :: rest) h = lookup_bond rest h from by
          simp [lookup_bond, hk]]
        exact ih

/-- The keys and endpoints of the bond list are unchanged (deposits only
rewrite energy slots in place). -/
def bonds_struct_eq (bs bs' : List (ℕ × Bond)) : Prop :=
  bs'.map Prod.fst = bs.map Prod.fst ∧
  ∀ h, (lookup_bond bs' h).map (fun b => (b.node1_handle, b.node2_handle)) =
       (lookup_bond bs h).map (fun b => (b.node1_handle, b.node2_handle))

lemma bonds_struct_eq_refl (bs : List (ℕ × Bond)) : bonds_struct_eq bs bs :=
  ⟨rfl, fun _ => rfl⟩

lemma bonds_struct_eq_trans {a b c : List (ℕ × Bond)}
    (h1 : bonds_struct_eq a b) (h2 : bonds_struct_eq b c) :
    bonds_struct_eq a c :=
  ⟨h2.1.trans h1.1, fun h => (h2.2 h).trans (h1.2 h)⟩

/-- The donation deposited by endpoint `u` into the bond at handle `h` is
visible: the slot for the opposite endpoint carries `don`. -/
def DepositVisible (u h : ℕ) (don : ℚ) (bonds : List (ℕ × Bond)) : Prop :=
  ∃ b, lookup_bond bonds h = some b ∧
    ((u = b.node1_handle ∧ b.energy_for_cell2 = don) ∨
     (u ≠ b.node1_handle ∧ u = b.node2_handle ∧ b.energy_for_cell1 = don))

lemma slot_mem {l : List (Option ℕ)} {i : ℕ} {h : ℕ}
    (hs : l.getD i none = some h) : (some h) ∈ l := by
  rw [List.getD_eq_getElem?_getD] at hs
  rcases heq : l[i]? with _ | s
  · rw [heq] at hs
    cases hs
  · rw [heq] at hs
    simp only [Option.getD_some] at hs
    subst hs
    exact List.getElem?_mem heq

lemma lookup_mem_keys {bs : List (ℕ × Bond)} {h : ℕ} {b : Bond}
    (hl : lookup_bond bs h = some b) : h ∈ bs.map Prod.fst := by
  induction bs with
  | nil => cases hl
  | cons hb rest ih =>
    by_cases hk : hb.1 = h
    · exact List.mem_map.mpr ⟨hb, List.mem_cons_self _ _, hk⟩
    · rw [show lookup_bond (hb :: rest) h =
        if hb.1 = h then some hb.2 else lookup_bond rest h from rfl,
        if_neg hk] at hl
      exact List.mem_cons_of_mem _ (ih hl)

lemma lookup_update_bond (bs : List (ℕ × Bond)) (h h' : ℕ) (b' : Bond) :
    lookup_bond (update_bond bs h b') h' =
      if h' = h then (lookup_bond bs h').map (fun _ => b')
      else lookup_bond bs h' := by
  unfold update_bond
  rw [lookup_map_bond_values]
  by_cases he : h' = h
  · subst he
    simp
  · simp only [he, if_false]
    cases lookup_bond bs h' <;> simp [he]

/-- Full case analysis of one bond-request slot: it succeeds when the
cell's slots name existing incident bonds, preserves bond structure, only
grows the child and broken collections (within the existing bond keys), has
the three per-slot effects, and leaves other cells' visible deposits — and
this cell's deposits on other handles — untouched. -/
lemma execute_one_cases (cell : CellNode) (st : BondReqState)
    (ir : ℕ × BondRequest)
    (hvalid : ∀ h, (some h) ∈ cell.edge_handles →
      ∃ b, lookup_bond st.bonds h = some b ∧
        (cell.handle = b.node1_handle ∨ cell.handle = b.node2_handle)) :
    ∃ st', execute_one_bond_request cell st ir = some st' ∧
      bonds_struct_eq st.bonds st'.bonds ∧
      (∀ kid ∈ st.new_children, kid ∈ st'.new_children) ∧
      (∀ h ∈ st.broken_bond_handles, h ∈ st'.broken_bond_handles) ∧
      (∀ h ∈ st'.broken_bond_handles, h ∈ st.broken_bond_handles ∨
        h ∈ st.bonds.map Prod.fst) ∧
      (ir.2.retain_bond = false → ∀ h,
        cell.edge_handles.getD ir.1 none = some h →
        h ∈ st'.broken_bond_handles) ∧
      (ir.2.retain_bond = true → ir.2.donation_energy ≠ 0 →
        cell.edge_handles.getD ir.1 none = none →
        (⟨cell.handle, ir.1, ir.2.budding_angle, ir.2.donation_energy⟩ :
          NewChildData) ∈ st'.new_children) ∧
      (ir.2.retain_bond = true → ir.2.donation_energy ≠ 0 → ∀ h,
        cell.edge_handles.getD ir.1 none = some h →
        DepositVisible cell.handle h ir.2.donation_energy st'.bonds) ∧
      (∀ u h' don', DepositVisible u h' don' st.bonds →
        (u ≠ cell.handle ∨ cell.edge_handles.getD ir.1 none ≠ some h') →
        DepositVisible u h' don' st'.bonds) := by
  by_cases hret : ir.2.retain_bond
  · by_cases hdon : ir.2.donation_energy ≠ 0
    · rcases hslot : cell.edge_handles.getD ir.1 none with _ | h
      · -- no bond at the slot: record a child
        refine ⟨{ st with new_children := st.new_children ++
            [⟨cell.handle, ir.1, ir.2.budding_angle, ir.2.donation_energy⟩] },
          ?_, bonds_struct_eq_refl _, ?_, fun h hm => hm,
          fun h hm => Or.inl hm, ?_, ?_, ?_, ?_⟩
        · unfold execute_one_bond_request
          rw [if_pos hret, if_pos hdon, hslot]
        · intro kid hm
          exact List.mem_append_left _ hm
        · intro hr
          rw [hr] at hret
          cases hret
        · intro _ _ _
          exact List.mem_append_right _ (List.mem_singleton.mpr rfl)
        · intro _ _ h hsome
          cases hsome
        · intro u h' don' hdv _
          exact hdv
      · -- deposit into the existing bond at the slot
        obtain ⟨b, hb, hinc⟩ := hvalid h (slot_mem hslot)
        have hset : ∃ b', b.set_energy_from_cell cell.handle
            ir.2.donation_energy = some b' ∧
            b'.node1_handle = b.node1_handle ∧
            b'.node2_handle = b.node2_handle ∧
            ((cell.handle = b.node1_handle ∧
                b'.energy_for_cell2 = ir.2.donation_energy ∧
                b'.energy_for_cell1 = b.energy_for_cell1) ∨
             (cell.handle ≠ b.node1_handle ∧ cell.handle = b.node2_handle ∧
                b'.energy_for_cell1 = ir.2.donation_energy ∧
                b'.energy_for_cell2 = b.energy_for_cell2)) := by
          unfold Bond.set_energy_from_cell
          by_cases h1 : cell.handle = b.node1_handle
          · refine ⟨{ b with energy_for_cell2 := ir.2.donation_energy },
              ?_, rfl, rfl, Or.inl ⟨h1, rfl, rfl⟩⟩
            rw [if_pos h1]
          · rcases hinc with h1' | h2
            · exact absurd h1' h1
            · refine ⟨{ b with energy_for_cell1 := ir.2.donation_energy },
                ?_, rfl, rfl, Or.inr ⟨h1, h2, rfl, rfl⟩⟩
              rw [if_neg h1, if_pos h2]
        obtain ⟨b', hset', hn1, hn2, hcases⟩ := hset
        refine ⟨{ st with bonds := update_bond st.bonds h b' }, ?_, ?_,
          fun kid hm => hm, fun h0 hm => hm, fun h0 hm => Or.inl hm,
          ?_, ?_, ?_, ?_⟩
        · unfold execute_one_bond_request
          rw [if_pos hret, if_pos hdon, hslot]
          simp only [hb, hset', Option.map_some']
        · constructor
          · show (update_bond st.bonds h b').map Prod.fst = _
            unfold update_bond
            rw [map_bond_values_keys]
          · intro h0
            rw [lookup_update_bond]
            by_cases he : h0 = h
            · subst he
              rw [hb, if_pos rfl]
              simp [hn1, hn2]
            · rw [if_neg he]
        · intro hr
          rw [hr] at hret
          cases hret
        · intro _ _ hnone
          cases hnone
        · intro _ _ h0 hsome
          have hh : h = h0 := by injection hsome
          subst hh
          refine ⟨b', ?_, ?_⟩
          · rw [lookup_update_bond, if_pos rfl, hb, Option.map_some']
          · rcases hcases with ⟨hc1, hc2, _⟩ | ⟨hc1, hc2, hc3, _⟩
            · exact Or.inl ⟨hn1 ▸ hc1, hc2⟩
            · exact Or.inr ⟨hn1 ▸ hc1, hn2 ▸ hc2, hc3⟩
        · intro u h' don' hdv hcond
          obtain ⟨b0, hb0, hslots0⟩ := hdv
          by_cases he : h' = h
          · subst he
            rw [hb0] at hb
            have hbb : b0 = b := by injection hb
            subst hbb
            have hu : u ≠ cell.handle := by
              rcases hcond with hu | hne
              · exact hu
              · exact absurd rfl hne
            refine ⟨b', by rw [lookup_update_bond, if_pos rfl, hb0,
              Option.map_some'], ?_⟩
            rcases hslots0 with ⟨hu1, he2⟩ | ⟨hu1, hu2, he1⟩
            · -- u is node1, so the slot observed is energy_for_cell2;
              -- the depositor is not u, hence it is node2 writing cell1's slot
              rcases hcases with ⟨hc1, _, _⟩ | ⟨hc1, hc2, hc3, hc4⟩
              · exact absurd (hu1.trans hc1.symm) hu
              · exact Or.inl ⟨hn1 ▸ hu1, hc4 ▸ he2⟩
            · rcases hcases with ⟨hc1, hc2, hc3⟩ | ⟨hc1, hc2, _, _⟩
              · exact Or.inr ⟨hn1 ▸ hu1, hn2 ▸ hu2, hc3 ▸ he1⟩
              · exact absurd (hu2.trans hc2.symm) hu
          · exact ⟨b0, by rw [lookup_update_bond, if_neg he]; exact hb0,
              hslots0⟩
    · -- retain with zero donation: no effect
      refine ⟨st, ?_, bonds_struct_eq_refl _, fun kid hm => hm,
        fun h hm => hm, fun h hm => Or.inl hm, ?_, ?_, ?_, fun _ _ _ hdv _ => hdv⟩
      · unfold execute_one_bond_request
        rw [if_pos hret, if_neg hdon]
      · intro hr
        rw [hr] at hret
        cases hret
      · intro _ hd
        exact absurd hd hdon
      · intro _ hd
        exact absurd hd hdon
  · -- not retained: break the bond if present
    rcases hslot : cell.edge_handles.getD ir.1 none with _ | h
    · refine ⟨st, ?_, bonds_struct_eq_refl _, fun kid hm => hm,
        fun h hm => hm, fun h hm => Or.inl hm, ?_, ?_, ?_,
        fun _ _ _ hdv _ => hdv⟩
      · unfold execute_one_bond_request
        rw [if_neg hret, hslot]
      · intro _ h hsome
        cases hsome
      · intro hr
        exact absurd hr hret
      · intro hr
        exact absurd hr hret
    · obtain ⟨b, hb, _⟩ := hvalid h (slot_mem hslot)
      refine ⟨{ st with broken_bond_handles :=
          st.broken_bond_handles.insert h }, ?_, bonds_struct_eq_refl _,
        fun kid hm => hm, ?_, ?_, ?_, ?_, ?_, fun _ _ _ hdv _ => hdv⟩
      · unfold execute_one_bond_request
        rw [if_neg hret, hslot]
      · intro h0 hm
        exact List.mem_insert_of_mem hm
      · intro h0 hm
        rcases List.mem_insert_iff.mp hm with rfl | hm'
        · exact Or.inr (lookup_mem_keys hb)
        · exact Or.inl hm'
      · intro _ h0 hsome
        have hh : h = h0 := by injection hsome
        subst hh
        exact List.mem_insert_self _ _
      · intro hr
        exact absurd hr hret
      · intro hr
        exact absurd hr hret

/-- Two slots holding the same bond handle are the same slot (slot arrays
contain no duplicate handles). -/
lemma slot_handle_unique {l : List (Option ℕ)}
    (hnd : (l.filterMap id).Nodup) :
    ∀ {i j h : ℕ}, l.getD i none = some h → l.getD j none = some h → i = j := by
  induction l with
  | nil =>
    intro i j h hi _
    rw [List.getD] at hi
    simp at hi
  | cons a t ih =>
    have hndt : (t.filterMap id).Nodup := by
      cases a with
      | none => simpa using hnd
      | some v => exact (List.nodup_cons.mp (by simpa using hnd)).2
    intro i j h hi hj
    cases i with
    | zero =>
      cases j with
      | zero => rfl
      | succ k =>
        rw [List.getD_cons_zero] at hi
        rw [List.getD_cons_succ] at hj
        subst hi
        have hmem : h ∈ t.filterMap id :=
          List.mem_filterMap.mpr ⟨some h, slot_mem hj, rfl⟩
        have : ¬ h ∈ t.filterMap id :=
          (List.nodup_cons.mp (by simpa using hnd)).1
        exact absurd hmem this
    | succ k =>
      cases j with
      | zero =>
        rw [List.getD_cons_zero] at hj
        rw [List.getD_cons_succ] at hi
        subst hj
        have hmem : h ∈ t.filterMap id :=
          List.mem_filterMap.mpr ⟨some h, slot_mem hi, rfl⟩
        have : ¬ h ∈ t.filterMap id :=
          (List.nodup_cons.mp (by simpa using hnd)).1
        exact absurd hmem this
      | succ k' =>
        rw [List.getD_cons_succ] at hi hj
        exact congrArg Nat.succ (ih hndt hi hj)

lemma hvalid_transport {bs bs' : List (ℕ × Bond)}
    (hse : bonds_struct_eq bs bs') (u h : ℕ)
    (hv : ∃ b, lookup_bond bs h = some b ∧
      (u = b.node1_handle ∨ u = b.node2_handle)) :
    ∃ b', lookup_bond bs' h = some b' ∧
      (u = b'.node1_handle ∨ u = b'.node2_handle) := by
  obtain ⟨b, hb, hinc⟩ := hv
  have := hse.2 h
  rw [hb, Option.map_some'] at this
  rcases hl : lookup_bond bs' h with _ | b'
  · rw [hl] at this
    cases this
  · rw [hl, Option.map_some'] at this
    have hpair : (b'.node1_handle, b'.node2_handle) =
        (b.node1_handle, b.node2_handle) := by injection this
    have h1 : b'.node1_handle = b.node1_handle := congrArg Prod.fst hpair
    have h2 : b'.node2_handle = b.node2_handle := congrArg Prod.snd hpair
    refine ⟨b', rfl, ?_⟩
    rcases hinc with hc | hc
    · exact Or.inl (h1.symm ▸ hc)
    · exact Or.inr (h2.symm ▸ hc)

/-- The whole request fold for one cell: success, structural preservation,
monotone collections, the three per-slot postconditions for every request,
and the deposit frame. -/
lemma execute_requests_fold (cell : CellNode)
    (hnd : (cell.edge_handles.filterMap id).Nodup) :
    ∀ (irs : List (ℕ × BondRequest)) (st : BondReqState),
      irs.Pairwise (fun a b => a.1 ≠ b.1) →
      (∀ h, (some h) ∈ cell.edge_handles →
        ∃ b, lookup_bond st.bonds h = some b ∧
          (cell.handle = b.node1_handle ∨ cell.handle = b.node2_handle)) →
      ∃ st', irs.foldlM (execute_one_bond_request cell) st = some st' ∧
        bonds_struct_eq st.bonds st'.bonds ∧
        (∀ kid ∈ st.new_children, kid ∈ st'.new_children) ∧
        (∀ h ∈ st.broken_bond_handles, h ∈ st'.broken_bond_handles) ∧
        (∀ h ∈ st'.broken_bond_handles, h ∈ st.broken_bond_handles ∨
          h ∈ st.bonds.map Prod.fst) ∧
        (∀ ir ∈ irs,
          (ir.2.retain_bond = false → ∀ h,
            cell.edge_handles.getD ir.1 none = some h →
            h ∈ st'.broken_bond_handles) ∧
          (ir.2.retain_bond = true → ir.2.donation_energy ≠ 0 →
            cell.edge_handles.getD ir.1 none = none →
            (⟨cell.handle, ir.1, ir.2.budding_angle, ir.2.donation_energy⟩ :
              NewChildData) ∈ st'.new_children) ∧
          (ir.2.retain_bond = true → ir.2.donation_energy ≠ 0 → ∀ h,
            cell.edge_handles.getD ir.1 none = some h →
            DepositVisible cell.handle h ir.2.donation_energy st'.bonds)) ∧
        (∀ u h' don', DepositVisible u h' don' st.bonds →
          (u ≠ cell.handle ∨ ∀ ir ∈ irs,
            cell.edge_handles.getD ir.1 none ≠ some h') →
          DepositVisible u h' don' st'.bonds) := by
  intro irs
  induction irs with
  | nil =>
    intro st _ _
    exact ⟨st, rfl, bonds_struct_eq_refl _, fun _ hm => hm, fun _ hm => hm,
      fun _ hm => Or.inl hm, fun _ hm => absurd hm (List.not_mem_nil _),
      fun _ _ _ hdv _ => hdv⟩
  | cons ir rest ih =>
    intro st hpair hvalid
    obtain ⟨st₁, hstep, hse₁, hkids₁, hbr₁, hbr₁', hbreak₁, hkid₁, hdep₁,
      hframe₁⟩ := execute_one_cases cell st ir hvalid
    obtain ⟨st', hfold, hse₂, hkids₂, hbr₂, hbr₂', hpost₂, hframe₂⟩ :=
      ih st₁ (List.pairwise_cons.mp hpair).2
        (fun h hm => hvalid_transport hse₁ cell.handle h (hvalid h hm))
    have hkeys₁ : st₁.bonds.map Prod.fst = st.bonds.map Prod.fst := hse₁.1
    refine ⟨st', ?_, bonds_struct_eq_trans hse₁ hse₂,
      fun kid hm => hkids₂ kid (hkids₁ kid hm),
      fun h hm => hbr₂ h (hbr₁ h hm), ?_, ?_, ?_⟩
    · rw [List.foldlM_cons, hstep]
      simp only [Option.bind_eq_bind, Option.some_bind]
      exact hfold
    · intro h hm
      rcases hbr₂' h hm with hm1 | hm1
      · exact hbr₁' h hm1
      · rw [hkeys₁] at hm1
        exact Or.inr hm1
    · intro ir' hm
      rcases List.mem_cons.mp hm with rfl | hm'
      · refine ⟨?_, ?_, ?_⟩
        · intro hret h hsl
          exact hbr₂ h (hbreak₁ hret h hsl)
        · intro hret hdon hsl
          exact hkids₂ _ (hkid₁ hret hdon hsl)
        · intro hret hdon h hsl
          refine hframe₂ cell.handle h ir'.2.donation_energy
            (hdep₁ hret hdon h hsl) (Or.inr ?_)
          intro ir₂ hm₂ hsl₂
          have hij : ir₂.1 = ir'.1 := slot_handle_unique hnd hsl₂ hsl
          exact (List.pairwise_cons.mp hpair).1 ir₂ hm₂ hij.symm
      · exact hpost₂ ir' hm'
    · intro u h' don' hdv hcond
      refine hframe₂ u h' don' (hframe₁ u h' don' hdv ?_) ?_
      · rcases hcond with hu | hall
        · exact Or.inl hu
        · exact Or.inr (hall ir (List.mem_cons_self _ _))
      · rcases hcond with hu | hall
        · exact Or.inl hu
        · exact Or.inr fun ir₂ hm₂ => hall ir₂ (List.mem_cons_of_mem _ hm₂)

lemma enum_pairwise_fst {α : Type} (l : List α) :
    l.enum.Pairwise (fun a b => a.1 ≠ b.1) := by
  have h : (l.enum.map Prod.fst).Nodup := by
    rw [List.enum_map_fst]
    exact List.nodup_range _
  exact List.pairwise_map.mp h

/-- All of one cell's bond requests: `execute_bond_requests` in terms of the
request fold. -/
lemma execute_bond_requests_spec (cell : CellNode)
    (hnd : (cell.edge_handles.filterMap id).Nodup)
    (st : BondReqState)
    (hvalid : ∀ h, (some h) ∈ cell.edge_handles →
      ∃ b, lookup_bond st.bonds h = some b ∧
        (cell.handle = b.node1_handle ∨ cell.handle = b.node2_handle))
    (requests : List BondRequest) :
    ∃ st', execute_bond_requests cell st requests = some st' ∧
      bonds_struct_eq st.bonds st'.bonds ∧
      (∀ kid ∈ st.new_children, kid ∈ st'.new_children) ∧
      (∀ h ∈ st.broken_bond_handles, h ∈ st'.broken_bond_handles) ∧
      (∀ h ∈ st'.broken_bond_handles, h ∈ st.broken_bond_handles ∨
        h ∈ st.bonds.map Prod.fst) ∧
      (∀ ir ∈ requests.enum,
        (ir.2.retain_bond = false → ∀ h,
          cell.edge_handles.getD ir.1 none = some h →
          h ∈ st'.broken_bond_handles) ∧
        (ir.2.retain_bond = true → ir.2.donation_energy ≠ 0 →
          cell.edge_handles.getD ir.1 none = none →
          (⟨cell.handle, ir.1, ir.2.budding_angle, ir.2.donation_energy⟩ :
            NewChildData) ∈ st'.new_children) ∧
        (ir.2.retain_bond = true → ir.2.donation_energy ≠ 0 → ∀ h,
          cell.edge_handles.getD ir.1 none = some h →
          DepositVisible cell.handle h ir.2.donation_energy st'.bonds)) ∧
      (∀ u h' don', DepositVisible u h' don' st.bonds →
        u ≠ cell.handle → DepositVisible u h' don' st'.bonds) := by
  obtain ⟨st', hfold, hse, hkids, hbr, hbr', hpost, hframe⟩ :=
    execute_requests_fold cell hnd requests.enum st
      (enum_pairwise_fst requests) hvalid
  exact ⟨st', hfold, hse, hkids, hbr, hbr', hpost,
    fun u h' don' hdv hu => hframe u h' don' hdv (Or.inl hu)⟩

/-- The full per-cell iteration of `run_cell_controls`: all cells succeed
when the world invariant's graph conditions hold, bond structure is
preserved, each cell's per-slot effects are recorded, the broken set stays
inside the pre-existing bond keys, and the dead list collects exactly the
handles of the non-alive cells in order. -/
lemma run_pass_spec (reqs : ℕ → List BondRequest) :
    ∀ (cs : List CellNode) (st : BondReqState) (dead : List ℕ),
      (cs.map CellNode.handle).Nodup →
      (∀ c ∈ cs, (c.edge_handles.filterMap id).Nodup) →
      (∀ c ∈ cs, ∀ h, (some h) ∈ c.edge_handles →
        ∃ b, lookup_bond st.bonds h = some b ∧
          (c.handle = b.node1_handle ∨ c.handle = b.node2_handle)) →
      ∃ st' dead', run_controls_pass reqs cs st dead = some (st', dead') ∧
        bonds_struct_eq st.bonds st'.bonds ∧
        (∀ kid ∈ st.new_children, kid ∈ st'.new_children) ∧
        (∀ h ∈ st.broken_bond_handles, h ∈ st'.broken_bond_handles) ∧
        (∀ h ∈ st'.broken_bond_handles, h ∈ st.broken_bond_handles ∨
          h ∈ st.bonds.map Prod.fst) ∧
        dead' = dead ++ (cs.filter fun c => !c.alive).map CellNode.handle ∧
        (∀ c ∈ cs, ∀ ir ∈ (reqs c.handle).enum,
          (ir.2.retain_bond = false → ∀ h,
            c.edge_handles.getD ir.1 none = some h →
            h ∈ st'.broken_bond_handles) ∧
          (ir.2.retain_bond = true → ir.2.donation_energy ≠ 0 →
            c.edge_handles.getD ir.1 none = none →
            (⟨c.handle, ir.1, ir.2.budding_angle, ir.2.donation_energy⟩ :
              NewChildData) ∈ st'.new_children) ∧
          (ir.2.retain_bond = true → ir.2.donation_energy ≠ 0 → ∀ h,
            c.edge_handles.getD ir.1 none = some h →
            DepositVisible c.handle h ir.2.donation_energy st'.bonds)) ∧
        (∀ u h' don', DepositVisible u h' don' st.bonds →
          u ∉ cs.map CellNode.handle →
          DepositVisible u h' don' st'.bonds) := by
  intro cs
  induction cs with
  | nil =>
    intro st dead _ _ _
    exact ⟨st, dead, rfl, bonds_struct_eq_refl _, fun _ hm => hm,
      fun _ hm => hm, fun _ hm => Or.inl hm, by simp,
      fun _ hm => absurd hm (List.not_mem_nil _), fun _ _ _ hdv _ => hdv⟩
  | cons c rest ih =>
    intro st dead hnodup hslots hvalid
    obtain ⟨st₁, hexec, hse₁, hkids₁, hbr₁, hbr₁', hpost₁, hframe₁⟩ :=
      execute_bond_requests_spec c (hslots c (List.mem_cons_self _ _)) st
        (hvalid c (List.mem_cons_self _ _)) (reqs c.handle)
    obtain ⟨st', dead', hrun, hse₂, hkids₂, hbr₂, hbr₂', hdead₂, hpost₂,
      hframe₂⟩ :=
      ih st₁ (if c.alive then dead else dead ++ [c.handle])
        (List.nodup_cons.mp hnodup).2
        (fun c' hm => hslots c' (List.mem_cons_of_mem _ hm))
        (fun c' hm h hh =>
          hvalid_transport hse₁ c'.handle h (hvalid c' (List.mem_cons_of_mem _ hm) h hh))
    have hchead : c.handle ∉ rest.map CellNode.handle :=
      (List.nodup_cons.mp hnodup).1
    refine ⟨st', dead', ?_, bonds_struct_eq_trans hse₁ hse₂,
      fun kid hm => hkids₂ kid (hkids₁ kid hm),
      fun h hm => hbr₂ h (hbr₁ h hm), ?_, ?_, ?_, ?_⟩
    · rw [run_controls_pass, hexec]
      simp only [Option.bind_eq_bind, Option.some_bind]
      exact hrun
    · intro h hm
      rcases hbr₂' h hm with hm1 | hm1
      · exact hbr₁' h hm1
      · rw [hse₁.1] at hm1
        exact Or.inr hm1
    · rw [hdead₂]
      by_cases hc : c.alive
      · simp [hc, List.filter_cons]
      · have hc' : c.alive = false := Bool.not_eq_true _ |>.mp hc
        simp [hc', List.filter_cons, List.append_assoc]
    · intro c' hm ir hmir
      rcases List.mem_cons.mp hm with rfl | hm'
      · refine ⟨?_, ?_, ?_⟩
        · intro hret h hsl
          exact hbr₂ h ((hpost₁ ir hmir).1 hret h hsl)
        · intro hret hdon hsl
          exact hkids₂ _ ((hpost₁ ir hmir).2.1 hret hdon hsl)
        · intro hret hdon h hsl
          exact hframe₂ c'.handle h ir.2.donation_energy
            ((hpost₁ ir hmir).2.2 hret hdon h hsl) hchead
      · exact hpost₂ c' hm' ir hmir
    · intro u h' don' hdv hu
      have hu1 : u ≠ c.handle := fun he =>
        hu (he ▸ List.mem_cons_self _ _ : u ∈ (c :: rest).map CellNode.handle)
      refine hframe₂ u h' don' (hframe₁ u h' don' hdv hu1) ?_
      intro hm
      exact hu (List.mem_cons_of_mem _ hm)

/-- Provenance of new-child records at one step: the only branch that grows
`new_children` appends a record whose parent is the executing cell. -/
lemma execute_one_kid_prov (cell : CellNode) (st : BondReqState)
    (ir : ℕ × BondRequest) (st' : BondReqState)
    (hst : execute_one_bond_request cell st ir = some st') :
    ∀ kid ∈ st'.new_children, kid ∈ st.new_children ∨
      kid.parent = cell.handle := by
  simp only [execute_one_bond_request] at hst
  split at hst
  · -- retain_bond = true
    split at hst
    · -- nonzero donation
      split at hst
      · -- slot names a handle: deposit (or hard failure)
        split at hst
        · cases hst
        · rename_i bond heq
          rcases hset : Bond.set_energy_from_cell bond cell.handle
              ir.2.donation_energy with _ | b' <;> rw [hset] at hst
          · cases hst
          · rw [Option.map_some'] at hst
            have hnc : st'.new_children = st.new_children := by
              injection hst with h
              rw [← h]
            intro kid hm
            rw [hnc] at hm
            exact Or.inl hm
      · -- empty slot: a child record is appended
        have hnc : st'.new_children = st.new_children ++
            [⟨cell.handle, ir.1, ir.2.budding_angle,
              ir.2.donation_energy⟩] := by
          injection hst with h
          rw [← h]
        intro kid hm
        rw [hnc] at hm
        rcases List.mem_append.mp hm with hm' | hm'
        · exact Or.inl hm'
        · rw [List.mem_singleton] at hm'
          subst hm'
          exact Or.inr rfl
    · -- zero donation: identity
      have hnc : st'.new_children = st.new_children := by
        injection hst with h
        rw [← h]
      intro kid hm
      rw [hnc] at hm
      exact Or.inl hm
  · -- break: new_children is untouched in both arms
    split at hst
    all_goals
      have hnc : st'.new_children = st.new_children := by
        injection hst with h
        rw [← h]
      intro kid hm
      rw [hnc] at hm
      exact Or.inl hm

lemma execute_requests_kid_prov (cell : CellNode) :
    ∀ (irs : List (ℕ × BondRequest)) (st st' : BondReqState),
      irs.foldlM (execute_one_bond_request cell) st = some st' →
      ∀ kid ∈ st'.new_children, kid ∈ st.new_children ∨
        kid.parent = cell.handle := by
  intro irs
  induction irs with
  | nil =>
    intro st st' hst
    have : st' = st := by
      injection hst with h
      exact h.symm
    subst this
    intro kid hm
    exact Or.inl hm
  | cons ir rest ih =>
    intro st st' hst
    rw [List.foldlM_cons] at hst
    rcases h1 : execute_one_bond_request cell st ir with _ | st₁
    · rw [h1] at hst
      cases hst
    · rw [h1] at hst
      simp only [Option.bind_eq_bind, Option.some_bind] at hst
      intro kid hm
      rcases ih st₁ st' hst kid hm with hm' | hp
      · exact execute_one_kid_prov cell st ir st₁ h1 kid hm'
      · exact Or.inr hp

lemma run_pass_kid_prov (reqs : ℕ → List BondRequest) :
    ∀ (cs : List CellNode) (st : BondReqState) (dead : List ℕ)
      (st' : BondReqState) (dead' : List ℕ),
      run_controls_pass reqs cs st dead = some (st', dead') →
      ∀ kid ∈ st'.new_children, kid ∈ st.new_children ∨
        kid.parent ∈ cs.map CellNode.handle := by
  intro cs
  induction cs with
  | nil =>
    intro st dead st' dead' hst
    have : st' = st := by
      injection hst with h
      exact (congrArg Prod.fst h).symm
    subst this
    intro kid hm
    exact Or.inl hm
  | cons c rest ih =>
    intro st dead st' dead' hst
    rw [run_controls_pass] at hst
    rcases h1 : execute_bond_requests c st (reqs c.handle) with _ | st₁
    · rw [h1] at hst
      cases hst
    · rw [h1] at hst
      simp only [Option.bind_eq_bind, Option.some_bind] at hst
      intro kid hm
      rcases ih st₁ _ st' dead' hst kid hm with hm' | hp
      · rcases execute_requests_kid_prov c (reqs c.handle).enum st st₁ h1
          kid hm' with hm'' | hp'
        · exact Or.inl hm''
        · exact Or.inr (hp' ▸ List.mem_map_of_mem CellNode.handle
            (List.mem_cons_self _ _))
      · exact Or.inr (List.mem_cons_of_mem _ hp)

lemma lookup_filter_none {bs : List (ℕ × Bond)} {q : ℕ × Bond → Bool} {h : ℕ}
    (h0 : lookup_bond bs h = none) : lookup_bond (bs.filter q) h = none := by
  induction bs with
  | nil => rfl
  | cons hb rest ih =>
    by_cases hk : hb.1 = h
    · rw [lookup_bond, if_pos hk] at h0
      cases h0
    · rw [lookup_bond, if_neg hk] at h0
      by_cases hq : q hb = true
      · simp only [List.filter, hq, lookup_bond, hk, if_false]
        exact ih h0
      · simp only [List.filter]
        rw [Bool.not_eq_true] at hq
        rw [hq]
        exact ih h0

lemma clear_slots_handle (rem : List ℕ) (c : CellNode) :
    (clear_slots rem c).handle = c.handle := rfl

lemma clear_slots_alive (rem : List ℕ) (c : CellNode) :
    (clear_slots rem c).alive = c.alive := rfl

lemma clear_slots_getD (rem : List ℕ) (c : CellNode) (i : ℕ) :
    (clear_slots rem c).edge_handles.getD i none =
      match c.edge_handles.getD i none with
      | some h => if h ∈ rem then none else some h
      | none => none := by
  simp only [clear_slots]
  simp only [List.getD_eq_getElem?_getD, List.getElem?_map]
  cases hx : c.edge_handles[i]? with
  | none => rfl
  | some s => cases s <;> rfl

/-- `add_children` facts: handle freshness and key distinctness persist, old
bonds keep their lookups, untouched old cells survive, and every kid yields
a fresh child cell and a fresh parent↔child bond carrying the donated
energy for the child, registered at slot 0 of the child. -/
lemma add_children_facts :
    ∀ (kids : List NewChildData) (wa : WorldModel),
      (∀ hb ∈ wa.bonds, hb.1 < wa.next_bond_handle) →
      (∀ c ∈ wa.cells, c.handle < wa.next_cell_handle) →
      (∀ kid ∈ kids, kid.parent < wa.next_cell_handle) →
      (wa.bonds.map Prod.fst).Nodup →
      (∀ hb ∈ (add_children wa kids).bonds,
        hb.1 < (add_children wa kids).next_bond_handle) ∧
      (∀ c ∈ (add_children wa kids).cells,
        c.handle < (add_children wa kids).next_cell_handle) ∧
      wa.next_bond_handle ≤ (add_children wa kids).next_bond_handle ∧
      wa.next_cell_handle ≤ (add_children wa kids).next_cell_handle ∧
      ((add_children wa kids).bonds.map Prod.fst).Nodup ∧
      (∀ h, h < wa.next_bond_handle →
        lookup_bond (add_children wa kids).bonds h = lookup_bond wa.bonds h) ∧
      (∀ c ∈ wa.cells, (∀ kid ∈ kids, kid.parent ≠ c.handle) →
        c ∈ (add_children wa kids).cells) ∧
      (∀ kid ∈ kids, ∃ bh ch,
        wa.next_bond_handle ≤ bh ∧ wa.next_cell_handle ≤ ch ∧
        lookup_bond (add_children wa kids).bonds bh =
          some ⟨kid.parent, ch, 0, kid.donated_energy⟩ ∧
        ∃ child ∈ (add_children wa kids).cells, child.handle = ch ∧
          child.alive = true ∧ child.edge_handles.getD 0 none = some bh) := by
  intro kids
  induction kids with
  | nil =>
    intro wa hkb hkc _ hnd
    exact ⟨hkb, hkc, le_refl _, le_refl _, hnd, fun _ _ => rfl,
      fun c hc _ => hc, fun kid hm => absurd hm (List.not_mem_nil _)⟩
  | cons kid rest ih =>
    intro wa hkb hkc hpar hnd
    have hstep : add_children wa (kid :: rest) =
        add_children (add_child wa kid) rest := rfl
    have hwbb : (add_child wa kid).bonds = wa.bonds ++
        [(wa.next_bond_handle,
          ⟨kid.parent, wa.next_cell_handle, 0, kid.donated_energy⟩)] := rfl
    have hwbc : (add_child wa kid).cells = (wa.cells.map fun c =>
        if c.handle = kid.parent then
          { c with edge_handles :=
              c.edge_handles.set kid.bond_index (some wa.next_bond_handle) }
        else c) ++
        [⟨wa.next_cell_handle, 0, true,
          spawn_child_slots wa.next_bond_handle⟩] := rfl
    have hwbn : (add_child wa kid).next_bond_handle =
        wa.next_bond_handle + 1 := rfl
    have hwcn : (add_child wa kid).next_cell_handle =
        wa.next_cell_handle + 1 := rfl
    have hmaph : ∀ c : CellNode, ((fun c =>
        if c.handle = kid.parent then
          { c with edge_handles :=
              c.edge_handles.set kid.bond_index (some wa.next_bond_handle) }
        else c) c).handle = c.handle := by
      intro c
      show (if c.handle = kid.parent then
        ({ c with edge_handles :=
            c.edge_handles.set kid.bond_index (some wa.next_bond_handle) } :
          CellNode) else c).handle = c.handle
      split_ifs <;> rfl
    have hlooknb : lookup_bond wa.bonds wa.next_bond_handle = none := by
      rcases hl : lookup_bond wa.bonds wa.next_bond_handle with _ | b
      · rfl
      · exfalso
        obtain ⟨hb, hbm, hbe⟩ := List.mem_map.mp (lookup_mem_keys hl)
        have := hkb hb hbm
        omega
    have hkb' : ∀ hb ∈ (add_child wa kid).bonds,
        hb.1 < (add_child wa kid).next_bond_handle := by
      intro hb hm
      rw [hwbb] at hm
      rw [hwbn]
      rcases List.mem_append.mp hm with hm' | hm'
      · have := hkb hb hm'
        omega
      · rw [List.mem_singleton] at hm'
        subst hm'
        omega
    have hkc' : ∀ c ∈ (add_child wa kid).cells,
        c.handle < (add_child wa kid).next_cell_handle := by
      intro c hm
      rw [hwbc] at hm
      rw [hwcn]
      rcases List.mem_append.mp hm with hm' | hm'
      · obtain ⟨c₀, hc₀, hc₀e⟩ := List.mem_map.mp hm'
        have hh : c.handle = c₀.handle := by
          rw [← hc₀e]
          exact hmaph c₀
        have := hkc c₀ hc₀
        omega
      · rw [List.mem_singleton] at hm'
        subst hm'
        show wa.next_cell_handle < wa.next_cell_handle + 1
        omega
    have hpar' : ∀ kid' ∈ rest, kid'.parent <
        (add_child wa kid).next_cell_handle := by
      intro kid' hm
      rw [hwcn]
      have := hpar kid' (List.mem_cons_of_mem _ hm)
      omega
    have hnd' : ((add_child wa kid).bonds.map Prod.fst).Nodup := by
      rw [hwbb, List.map_append]
      rw [List.nodup_append]
      refine ⟨hnd, List.nodup_singleton _, ?_⟩
      intro k hk hk'
      obtain ⟨hb, hbm, hbe⟩ := List.mem_map.mp hk
      simp only [List.map_cons, List.map_nil, List.mem_singleton] at hk'
      have := hkb hb hbm
      omega
    have hstab : ∀ h, h < wa.next_bond_handle →
        lookup_bond (add_child wa kid).bonds h = lookup_bond wa.bonds h := by
      intro h hh
      rw [hwbb, lookup_append]
      rcases hl : lookup_bond wa.bonds h with _ | b
      · show lookup_bond _ h = none
        rw [lookup_bond]
        rw [if_neg (by omega : ¬ wa.next_bond_handle = h)]
        rfl
      · rfl
    obtain ⟨ikb, ikc, inb, inc, ind, istab, icell, ikid⟩ :=
      ih (add_child wa kid) hkb' hkc' hpar' hnd'
    rw [hstep]
    refine ⟨ikb, ikc, ?_, ?_, ind, ?_, ?_, ?_⟩
    · rw [hwbn] at inb
      omega
    · rw [hwcn] at inc
      omega
    · intro h hh
      rw [istab h (by rw [hwbn]; omega), hstab h hh]
    · intro c hc hnp
      have hfc : (fun c =>
          if c.handle = kid.parent then
            { c with edge_handles :=
                c.edge_handles.set kid.bond_index (some wa.next_bond_handle) }
          else c) c = c := by
        show (if c.handle = kid.parent then
          ({ c with edge_handles :=
              c.edge_handles.set kid.bond_index (some wa.next_bond_handle) } :
            CellNode) else c) = c
        rw [if_neg fun he => hnp kid (List.mem_cons_self _ _) he.symm]
      refine icell c ?_ fun kid' hm => hnp kid' (List.mem_cons_of_mem _ hm)
      rw [hwbc]
      refine List.mem_append_left _ ?_
      rw [← hfc]
      exact List.mem_map_of_mem _ hc
    · intro kid' hm
      rcases List.mem_cons.mp hm with rfl | hm'
      · refine ⟨wa.next_bond_handle, wa.next_cell_handle, le_refl _,
          le_refl _, ?_, ?_⟩
        · rw [istab wa.next_bond_handle (by rw [hwbn]; omega), hwbb,
            lookup_append, hlooknb]
          show lookup_bond _ _ = _
          rw [lookup_bond, if_pos rfl]
        · refine ⟨⟨wa.next_cell_handle, 0, true,
            spawn_child_slots wa.next_bond_handle⟩, ?_, rfl, rfl, rfl⟩
          refine icell _ ?_ ?_
          · rw [hwbc]
            exact List.mem_append_right _ (List.mem_singleton.mpr rfl)
          · intro kid₂ hm₂
            have := hpar kid₂ (List.mem_cons_of_mem _ hm₂)
            show kid₂.parent ≠ wa.next_cell_handle
            omega
      · obtain ⟨bh, ch, hbh, hch, hlk, child, hcm, hche, hcal, hcsl⟩ :=
          ikid kid' hm'
        refine ⟨bh, ch, ?_, ?_, hlk, child, hcm, hche, hcal, hcsl⟩
        · rw [hwbn] at hbh
          omega
        · rw [hwcn] at hch
          omega

/-- A bond that is not broken and whose endpoints are not dead survives both
removal stages unchanged. -/
lemma removal_survival (w₂ : WorldModel) (broken dead : List ℕ) (h : ℕ)
    (b : Bond) (hl : lookup_bond w₂.bonds h = some b) (hnb : h ∉ broken)
    (h1 : b.node1_handle ∉ dead) (h2 : b.node2_handle ∉ dead) :
    lookup_bond (remove_nodes (remove_bonds w₂ broken) dead).bonds h =
      some b := by
  have h3 : lookup_bond (remove_bonds w₂ broken).bonds h = some b :=
    lookup_filter_of_pass hl (by simp [hnb])
  exact lookup_filter_of_pass h3 (by simp [h1, h2])

/-- A broken bond handle no longer resolves after the removal stages. -/
lemma removal_broken (w₂ : WorldModel) (broken dead : List ℕ) (h : ℕ)
    (hb : h ∈ broken) :
    lookup_bond (remove_nodes (remove_bonds w₂ broken) dead).bonds h =
      none := by
  have h3 : lookup_bond (remove_bonds w₂ broken).bonds h = none := by
    have hkeys := lookup_filter_keys w₂.bonds (fun k => decide (k ∉ broken)) h
    have hfalse : decide (h ∉ broken) = false := by simp [hb]
    rw [hfalse, if_neg Bool.false_ne_true] at hkeys
    exact hkeys
  exact lookup_filter_none h3

lemma remove_nodes_cells (w₃ : WorldModel) (dead : List ℕ) :
    ∀ c ∈ (remove_nodes w₃ dead).cells, c.handle ∉ dead := by
  intro c hm
  obtain ⟨c₀, hc₀, hc₀e⟩ := List.mem_map.mp hm
  have hflt := List.mem_filter.mp hc₀
  rw [← hc₀e, clear_slots_handle]
  exact of_decide_eq_true hflt.2

/-- An unbroken bond between two surviving cells keeps its lookup, and a
cell that is not dead survives with its slot reference to that bond. -/
lemma final_bond_cell_survival (w₂ : WorldModel) (broken dead : List ℕ)
    (bh : ℕ) (b : Bond) (child : CellNode)
    (hnd₂ : (w₂.bonds.map Prod.fst).Nodup)
    (hlk : lookup_bond w₂.bonds bh = some b)
    (hnb : bh ∉ broken)
    (h1 : b.node1_handle ∉ dead) (h2 : b.node2_handle ∉ dead)
    (hcm : child ∈ w₂.cells) (hch : child.handle ∉ dead)
    (hslot : child.edge_handles.getD 0 none = some bh) :
    lookup_bond (remove_nodes (remove_bonds w₂ broken) dead).bonds bh =
      some b ∧
    ∃ c' ∈ (remove_nodes (remove_bonds w₂ broken) dead).cells,
      c'.handle = child.handle ∧ c'.alive = child.alive ∧
      c'.edge_handles.getD 0 none = some bh := by
  have hw3 : lookup_bond (remove_bonds w₂ broken).bonds bh = some b :=
    lookup_filter_of_pass hlk (by simp [hnb])
  have hnd₃ : ((remove_bonds w₂ broken).bonds.map Prod.fst).Nodup :=
    ((List.filter_sublist w₂.bonds).map Prod.fst).nodup hnd₂
  have hbh_cas : bh ∉ ((remove_bonds w₂ broken).bonds.filter fun hb =>
      decide (hb.2.node1_handle ∈ dead ∨ hb.2.node2_handle ∈ dead)).map
        Prod.fst := by
    intro hmem
    obtain ⟨hb, hbm, hbe⟩ := List.mem_map.mp hmem
    have hbm' := List.mem_filter.mp hbm
    have hlk' : lookup_bond (remove_bonds w₂ broken).bonds hb.1 =
        some hb.2 := lookup_of_mem_nodup hbm'.1 hnd₃
    rw [hbe, hw3] at hlk'
    have hbb : b = hb.2 := by injection hlk'
    have hdec := hbm'.2
    rw [← hbb] at hdec
    rcases of_decide_eq_true hdec with hd | hd
    · exact h1 hd
    · exact h2 hd
  refine ⟨lookup_filter_of_pass hw3 (by simp [h1, h2]),
    clear_slots (((remove_bonds w₂ broken).bonds.filter fun hb =>
      decide (hb.2.node1_handle ∈ dead ∨ hb.2.node2_handle ∈ dead)).map
        Prod.fst) (clear_slots broken child), ?_, ?_, ?_, ?_⟩
  · refine List.mem_map_of_mem _ ?_
    refine List.mem_filter.mpr ⟨List.mem_map_of_mem _ hcm, ?_⟩
    rw [clear_slots_handle]
    exact decide_eq_true hch
  · rw [clear_slots_handle, clear_slots_handle]
  · rw [clear_slots_alive, clear_slots_alive]
  · rw [clear_slots_getD, clear_slots_getD, hslot]
    simp [hnb, hbh_cas]
    intro x hx
    have hlk' : lookup_bond (remove_bonds w₂ broken).bonds bh = some x :=
      lookup_of_mem_nodup hx hnd₃
    rw [hw3] at hlk'
    have hxb : b = x := by injection hlk'
    rw [← hxb]
    exact ⟨h1, h2⟩

/-- C3: at the end of `run_cell_controls`, per bond slot of each cell:
not retaining an existing bond marks it broken and it is absent from the
final world; retaining with a positive donation deposits the donation in
the existing bond for the opposite endpoint; retaining with a positive
donation and no bond records a child at the budding angle, and every such
child materialises as a fresh cell with a fresh parent↔child bond carrying
the donated energy for the child at (the requested slot on the parent,
slot 0 on the child) — `add_child` writes the parent's slot — with the
children and their bonds added before broken bonds are removed (so fresh
bonds survive the removal), and the dead cells removed last. -/
theorem run_cell_controls_spec (w : WorldModel) (reqs : ℕ → List BondRequest)
    (hinv : WorldInv w) :
    ∃ w' st' dead',
      run_cell_controls w reqs = some w' ∧
      run_controls_pass reqs w.cells ⟨w.bonds, [], []⟩ [] =
        some (st', dead') ∧
      w' = update_cell_graph { w with bonds := st'.bonds }
        st'.new_children st'.broken_bond_handles dead' ∧
      dead' = (w.cells.filter fun c => !c.alive).map CellNode.handle ∧
      (∀ c ∈ w.cells, ∀ ir ∈ (reqs c.handle).enum,
        (ir.2.retain_bond = false → ∀ h,
          c.edge_handles.getD ir.1 none = some h →
          h ∈ st'.broken_bond_handles ∧ lookup_bond w'.bonds h = none) ∧
        (ir.2.retain_bond = true → ir.2.donation_energy ≠ 0 → ∀ h,
          c.edge_handles.getD ir.1 none = some h →
          DepositVisible c.handle h ir.2.donation_energy st'.bonds) ∧
        (ir.2.retain_bond = true → ir.2.donation_energy ≠ 0 →
          c.edge_handles.getD ir.1 none = none →
          (⟨c.handle, ir.1, ir.2.budding_angle, ir.2.donation_energy⟩ :
            NewChildData) ∈ st'.new_children)) ∧
      (∀ kid ∈ st'.new_children, ∃ bh ch,
        w.next_bond_handle ≤ bh ∧ w.next_cell_handle ≤ ch ∧
        bh ∉ st'.broken_bond_handles ∧
        (kid.parent ∉ dead' →
          lookup_bond w'.bonds bh =
            some ⟨kid.parent, ch, 0, kid.donated_energy⟩ ∧
          ∃ child ∈ w'.cells, child.handle = ch ∧ child.alive = true ∧
            child.edge_handles.getD 0 none = some bh)) ∧
      (∀ (wa : WorldModel) (kid : NewChildData), ∀ p ∈ wa.cells,
        p.handle = kid.parent →
        (add_child wa kid).bonds = wa.bonds ++ [(wa.next_bond_handle,
          ⟨kid.parent, wa.next_cell_handle, 0, kid.donated_energy⟩)] ∧
        ∃ p' ∈ (add_child wa kid).cells, p'.handle = kid.parent ∧
          p'.edge_handles =
            p.edge_handles.set kid.bond_index (some wa.next_bond_handle)) ∧
      (∀ h b, lookup_bond st'.bonds h = some b →
        h ∉ st'.broken_bond_handles → b.node1_handle ∉ dead' →
        b.node2_handle ∉ dead' → lookup_bond w'.bonds h = some b) ∧
      (∀ hd ∈ dead', ∀ c ∈ w'.cells, c.handle ≠ hd) := by
  obtain ⟨st', dead', hrun, hse, hkids0, hbr0, hbr', hdead, hpost, hframe⟩ :=
    run_pass_spec reqs w.cells ⟨w.bonds, [], []⟩ [] hinv.cell_handles_nodup
      hinv.slots_nodup hinv.slots_valid
  have hbrkeys : ∀ h ∈ st'.broken_bond_handles, h ∈ w.bonds.map Prod.fst := by
    intro h hm
    rcases hbr' h hm with hm' | hm'
    · exact absurd hm' (List.not_mem_nil _)
    · exact hm'
  have hbrlt : ∀ h ∈ st'.broken_bond_handles, h < w.next_bond_handle := by
    intro h hm
    obtain ⟨hb, hbm, hbe⟩ := List.mem_map.mp (hbrkeys h hm)
    have := hinv.bond_keys_lt hb hbm
    omega
  have hdead' : dead' =
      (w.cells.filter fun c => !c.alive).map CellNode.handle := by
    rw [hdead, List.nil_append]
  have hdeadlt : ∀ hd ∈ dead', hd < w.next_cell_handle := by
    intro hd hm
    rw [hdead'] at hm
    obtain ⟨c, hc, hce⟩ := List.mem_map.mp hm
    have hcw := List.mem_filter.mp hc
    have := hinv.cell_handles_lt c hcw.1
    omega
  have hkb₁ : ∀ hb ∈ st'.bonds, hb.1 < w.next_bond_handle := by
    intro hb hm
    have hkm : hb.1 ∈ st'.bonds.map Prod.fst := List.mem_map_of_mem _ hm
    rw [hse.1] at hkm
    obtain ⟨hb₀, hbm₀, hbe₀⟩ := List.mem_map.mp hkm
    have := hinv.bond_keys_lt hb₀ hbm₀
    omega
  have hpar₁ : ∀ kid ∈ st'.new_children, kid.parent < w.next_cell_handle := by
    intro kid hm
    rcases run_pass_kid_prov reqs w.cells ⟨w.bonds, [], []⟩ [] st' dead'
        hrun kid hm with hm' | hm'
    · exact absurd hm' (List.not_mem_nil _)
    · obtain ⟨c, hc, hce⟩ := List.mem_map.mp hm'
      have := hinv.cell_handles_lt c hc
      omega
  have hnd₁ : (st'.bonds.map Prod.fst).Nodup := by
    rw [hse.1]
    exact hinv.bond_keys_nodup
  obtain ⟨akb, akc, anb, anc, andp, astab, acell, akid⟩ :=
    add_children_facts st'.new_children { w with bonds := st'.bonds }
      hkb₁ hinv.cell_handles_lt hpar₁ hnd₁
  refine ⟨update_cell_graph { w with bonds := st'.bonds } st'.new_children
    st'.broken_bond_handles dead', st', dead', ?_, hrun, rfl, hdead',
    ?_, ?_, ?_, ?_, ?_⟩
  · show (run_controls_pass reqs w.cells ⟨w.bonds, [], []⟩ []).map _ = _
    rw [hrun, Option.map_some']
  · intro c hc ir hir
    obtain ⟨hbreak, hkid, hdep⟩ := hpost c hc ir hir
    refine ⟨?_, hdep, hkid⟩
    intro hret h hsl
    refine ⟨hbreak hret h hsl, ?_⟩
    exact removal_broken _ st'.broken_bond_handles dead' h (hbreak hret h hsl)
  · intro kid hm
    obtain ⟨bh, ch, hbh, hch, hlk2, child, hcm, hche, hcal, hcsl⟩ :=
      akid kid hm
    have hbh' : w.next_bond_handle ≤ bh := hbh
    have hch' : w.next_cell_handle ≤ ch := hch
    have hbnb : bh ∉ st'.broken_bond_handles := by
      intro hmem
      have := hbrlt bh hmem
      omega
    refine ⟨bh, ch, hbh', hch', hbnb, ?_⟩
    intro hpd
    have hchd : child.handle ∉ dead' := by
      rw [hche]
      intro hmem
      have := hdeadlt _ hmem
      omega
    have h2d : (⟨kid.parent, ch, 0, kid.donated_energy⟩ :
        Bond).node2_handle ∉ dead' := by
      show ch ∉ dead'
      intro hmem
      have := hdeadlt _ hmem
      omega
    obtain ⟨hlkf, c', hc'm, hc'h, hc'a, hc'sl⟩ :=
      final_bond_cell_survival _ st'.broken_bond_handles dead' bh _ child
        andp hlk2 hbnb hpd h2d hcm hchd hcsl
    exact ⟨hlkf, c', hc'm, hc'h.trans hche, hc'a.trans hcal, hc'sl⟩
  · intro wa kid p hp hpe
    let p' : CellNode :=
      { p with edge_handles :=
          p.edge_handles.set kid.bond_index (some wa.next_bond_handle) }
    refine ⟨rfl, p', ?_, hpe, rfl⟩
    have hf : (fun c : CellNode => if c.handle = kid.parent then
        ({ c with edge_handles :=
            c.edge_handles.set kid.bond_index (some wa.next_bond_handle) } :
          CellNode)
        else c) p = p' := by
      show (if p.handle = kid.parent then
        ({ p with edge_handles :=
            p.edge_handles.set kid.bond_index (some wa.next_bond_handle) } :
          CellNode)
        else p) = _
      rw [if_pos hpe]
    exact List.mem_append_left _ (hf ▸ List.mem_map_of_mem _ hp)
  · intro h b hl hnb h1 h2
    have hlt : h < w.next_bond_handle := by
      obtain ⟨hb, hbm, hbe⟩ := List.mem_map.mp (lookup_mem_keys hl)
      have := hkb₁ hb hbm
      omega
    have hl2 : lookup_bond (add_children { w with bonds := st'.bonds }
        st'.new_children).bonds h = some b := by
      rw [astab h hlt]
      exact hl
    exact removal_survival _ st'.broken_bond_handles dead' h b hl2 hnb h1 h2
  · intro hd hm c hc he
    exact remove_nodes_cells _ dead' c hc (he ▸ hm)

/-- A request table for the two-cell witness world: cell 0 donates into its
existing bond and buds a child at its empty slot; cell 1 severs its bond. -/
def ccw_reqs : ℕ → List BondRequest := fun h =>
  if h = 0 then [⟨true, 0, 1⟩, ⟨true, (1 : ℚ)/2, 1⟩] else [⟨false, 0, 0⟩]

theorem run_cell_controls_spec_witness :
    WorldInv claim_witness_world ∧
    ∃ w' st' dead',
      run_cell_controls claim_witness_world ccw_reqs = some w' ∧
      run_controls_pass ccw_reqs claim_witness_world.cells
        ⟨claim_witness_world.bonds, [], []⟩ [] = some (st', dead') ∧
      dead' = (claim_witness_world.cells.filter fun c => !c.alive).map
        CellNode.handle ∧
      (∀ hd ∈ dead', ∀ c ∈ w'.cells, c.handle ≠ hd) :=
  ⟨claim_witness_world_inv, by
    obtain ⟨w', st', dead', h1, h2, _, h4, _, _, _, _, h9⟩ :=
      run_cell_controls_spec claim_witness_world ccw_reqs
        claim_witness_world_inv
    exact ⟨w', st', dead', h1, h2, h4, h9⟩⟩

end Evo
